import Mathlib

/-!
# bobcat: a verification development

Shallow embedding of `bobcat.c` (a minimal `cat`): the stream copier
`copy_file` and the operand dispatcher `main`, running against an explicit
model of the library calls the program makes (`open`, `read`, `write`,
`close`, `warn`).

## The environment

The state `Sys` holds the file system, the unread bytes of standard input,
the table of open descriptors, the bytes written so far to standard output,
the diagnostics written so far to standard error, and a log of every call
made, with its arguments and its return value.  The outcome of each `read`,
`write` and `close` (failure, short read, partial write) is taken from three
schedules indexed by a call counter, so that a theorem quantified over `Sys`
is quantified over every pattern of failures, short reads and partial writes.

* `open` succeeds exactly on the paths the file system maps to a content, and
  hands out the lowest free descriptor from 3 on.
* `read` returns -1, or transfers between 1 and `count` of the unread bytes;
  it returns 0 exactly at end-of-data.
* `write` returns -1, or accepts between 0 and `count` bytes.  A schedule may
  make a `write` accept 0 bytes; `WriteProgress` says that none does.
* `close` returns 0 or -1 and releases the descriptor either way.

## Fuel

The two `while` loops of `copy_file` are modelled with fuel.  A run that
exhausts its fuel yields `Res.timeout`, carrying the state reached so far, so
that a statement about `Res.state` for every fuel is a statement about every
point of a run, also of a run that never returns.  That a run returns is
proved separately: `main` returns as soon as the fuel exceeds the size of its
inputs, provided every successful `write` accepts at least one byte; without
that proviso the inner loop can run forever (`write_loop_stalls`).
-/

namespace Bobcat

/-! ## Data model -/

/-- One byte (`char`).  The program never inspects or transforms a byte. -/
abbrev Byte := Fin 256

/-- The record of one library call: its arguments and its return value. -/
inductive Event
  /-- The call `open(path, O_RDONLY)` returned `ret`. -/
  | openCall (path : String) (ret : Int)
  /-- The call `read(fd, buffer, count)` returned `ret`. -/
  | readCall (fd : Int) (count : Nat) (ret : Int)
  /-- The call `write(fd, buffer + off, count)` returned `ret`. -/
  | writeCall (fd : Int) (off : Int) (count : Int) (ret : Int)
  /-- The call `close(fd)` returned `ret`. -/
  | closeCall (fd : Int) (ret : Int)
  /-- The call `warn` wrote one diagnostic line for `name`. -/
  | warnCall (name : String)
  deriving DecidableEq

/-- What the kernel does with one `read` on a valid descriptor. -/
inductive ReadOutcome
  /-- The call fails and returns -1. -/
  | error
  /-- The call succeeds; the kernel has `n` bytes ready (a short read).  At
  least one byte is transferred whenever the source is not at end-of-data. -/
  | avail (n : Nat)
  deriving DecidableEq

/-- What the kernel does with one `write` to standard output. -/
inductive WriteOutcome
  /-- The call fails and returns -1. -/
  | error
  /-- The call succeeds and accepts at most `n` bytes (a partial write). -/
  | accept (n : Nat)
  deriving DecidableEq

/-- The process and its environment. -/
structure Sys where
  /-- The files that can be opened for reading, with their contents. -/
  fs : String → Option (List Byte)
  /-- The bytes of standard input that have not been read yet. -/
  stdin : List Byte
  /-- The open descriptors other than the standard streams, each with the
  bytes of its file that have not been read yet. -/
  fdtab : List (Int × List Byte)
  /-- The bytes written to standard output so far. -/
  stdout : List Byte
  /-- The diagnostics written to standard error so far, by display name. -/
  stderr : List String
  /-- Every call made so far, oldest first. -/
  trace : List Event
  /-- The number of `read`, `write` and `close` calls that reached the kernel. -/
  clock : Nat
  /-- The outcome of a `read` made at a given clock value. -/
  readO : Nat → ReadOutcome
  /-- The outcome of a `write` made at a given clock value. -/
  writeO : Nat → WriteOutcome
  /-- Whether a `close` made at a given clock value fails. -/
  closeO : Nat → Bool

/-- The result of running a loop with fuel. -/
inductive Res (α : Type)
  /-- The fuel ran out in state `s`; the code is still running. -/
  | timeout (s : Sys)
  /-- The code finished with value `a` in state `s`. -/
  | done (a : α) (s : Sys)

/-- The state a run has reached. -/
def Res.state {α : Type} : Res α → Sys
  | .timeout s => s
  | .done _ s => s

/-- The value a finished run produced. -/
def Res.value {α : Type} : Res α → Option α
  | .timeout _ => none
  | .done a _ => some a

/-! ## Constants of the program and of `unistd.h`, `stdlib.h` -/

/-- The macro `BUFFER_SIZE` of `bobcat.c`. -/
def BUFFER_SIZE : Nat := 4096

/-- The descriptor of standard input. -/
def STDIN_FILENO : Int := 0

/-- The descriptor of standard output. -/
def STDOUT_FILENO : Int := 1

/-- The exit status of success. -/
def EXIT_SUCCESS : Int := 0

/-- The exit status of failure. -/
def EXIT_FAILURE : Int := 1

/-! ## The library calls -/

/-- The unread bytes of the first table entry for descriptor `fd`. -/
def lookupFd : List (Int × List Byte) → Int → Option (List Byte)
  | [], _ => none
  | e :: t, fd => if e.1 = fd then some e.2 else lookupFd t fd

/-- Replace the unread bytes of the first table entry for descriptor `fd`. -/
def updateFd : List (Int × List Byte) → Int → List Byte → List (Int × List Byte)
  | [], _, _ => []
  | e :: t, fd, w => if e.1 = fd then (e.1, w) :: t else e :: updateFd t fd w

/-- Drop the first table entry for descriptor `fd`. -/
def removeFd : List (Int × List Byte) → Int → List (Int × List Byte)
  | [], _ => []
  | e :: t, fd => if e.1 = fd then t else e :: removeFd t fd

/-- The first descriptor from `k` on that is not in `used`, trying at most
`n` candidates. -/
def lowestFree (used : List Int) : Nat → Int → Int
  | 0, k => k
  | n + 1, k => if k ∈ used then lowestFree used n (k + 1) else k

/-- The descriptor `open` hands out: the lowest one that is free, the
standard streams 0, 1 and 2 being taken. -/
def allocFd (tab : List (Int × List Byte)) : Int :=
  lowestFree (tab.map Prod.fst) tab.length 3

/-- The unread bytes behind descriptor `fd`, when it is open for reading. -/
def source (s : Sys) (fd : Int) : Option (List Byte) :=
  if fd = STDIN_FILENO then some s.stdin else lookupFd s.fdtab fd

/-- Set the unread bytes behind descriptor `fd`. -/
def setSource (s : Sys) (fd : Int) (rest : List Byte) : Sys :=
  if fd = STDIN_FILENO then { s with stdin := rest }
  else { s with fdtab := updateFd s.fdtab fd rest }

/-- Append one event to the log. -/
def logEvent (e : Event) (s : Sys) : Sys :=
  { s with trace := s.trace ++ [e] }

/-- Advance the call counter. -/
def tick (s : Sys) : Sys :=
  { s with clock := s.clock + 1 }

/-- The call `open(path, O_RDONLY)`: fails with -1 when the file system has
no readable file `path`, else enters the file in the descriptor table and
returns the new descriptor. -/
def sys_open (path : String) (s : Sys) : Int × Sys :=
  match s.fs path with
  | none => (-1, logEvent (.openCall path (-1)) s)
  | some c =>
    let fd := allocFd s.fdtab
    (fd, logEvent (.openCall path fd) { s with fdtab := (fd, c) :: s.fdtab })

/-- The call `read(fd, buffer, count)`.  Returns the return value, the buffer
after the call and the state after the call.  On a descriptor that is not
open it fails without consulting the schedule.  On success the transferred
bytes overwrite the front of the buffer; the return value is 0 exactly when
the source has no unread byte left. -/
def sys_read (fd : Int) (buffer : List Byte) (count : Nat) (s : Sys) :
    Int × List Byte × Sys :=
  match source s fd with
  | none => (-1, buffer, logEvent (.readCall fd count (-1)) s)
  | some rest =>
    match s.readO s.clock with
    | .error => (-1, buffer, logEvent (.readCall fd count (-1)) (tick s))
    | .avail k =>
      let n := min (max k 1) (min count rest.length)
      ((n : Int), rest.take n ++ buffer.drop n,
        logEvent (.readCall fd count n) (tick (setSource s fd (rest.drop n))))

/-- The call `write(fd, buffer + off, count)`.  Only standard output is
writable.  On success the return value is at most `count`, and that many
bytes of the slice are appended to standard output. -/
def sys_write (fd : Int) (buffer : List Byte) (off count : Int) (s : Sys) :
    Int × Sys :=
  if fd = STDOUT_FILENO then
    match s.writeO s.clock with
    | .error => (-1, logEvent (.writeCall fd off count (-1)) (tick s))
    | .accept k =>
      let n := min k count.toNat
      ((n : Int), logEvent (.writeCall fd off count n)
        (tick { s with stdout := s.stdout ++ ((buffer.drop off.toNat).take count.toNat).take n }))
  else (-1, logEvent (.writeCall fd off count (-1)) s)

/-- The call `close(fd)`.  On a descriptor that is not in the table it fails
without consulting the schedule.  Otherwise the descriptor is released, also
when the call reports a failure. -/
def sys_close (fd : Int) (s : Sys) : Int × Sys :=
  match lookupFd s.fdtab fd with
  | none => (-1, logEvent (.closeCall fd (-1)) s)
  | some _ =>
    let ret : Int := if s.closeO s.clock then -1 else 0
    (ret, logEvent (.closeCall fd ret) (tick { s with fdtab := removeFd s.fdtab fd }))

/-- The call `warn` with the format for one string and `name`: one diagnostic
line on standard error, made of the program name, `name` and the text of
`errno`.  The model keeps `name`. -/
def warn (name : String) (s : Sys) : Sys :=
  logEvent (.warnCall name) { s with stderr := s.stderr ++ [name] }

/-! ## The program -/

/-- How the inner loop of `copy_file` ends. -/
inductive LoopExit
  /-- The loop condition became false, with this value of `total_written`. -/
  | finished (total_written : Int)
  /-- The function returned from inside the loop with this value. -/
  | returned (rc : Int)
  deriving DecidableEq

/-- The inner loop of `copy_file` (lines 27-35):
`while (total_written < bytes_read) { ... }`. -/
def write_loop (name : String) (buffer : List Byte) (bytes_read : Int) :
    Nat → Int → Sys → Res LoopExit
  | 0, _, s => .timeout s
  | fuel + 1, total_written, s =>
    if total_written < bytes_read then
      let w := sys_write STDOUT_FILENO buffer total_written (bytes_read - total_written) s
      let bytes_written := w.1
      if bytes_written < 0 then
        .done (.returned (-1)) (warn name w.2)
      else
        write_loop name buffer bytes_read fuel (total_written + bytes_written) w.2
    else
      .done (.finished total_written) s

/-- The outer loop of `copy_file` and the code after it (lines 25-42):
`while ((bytes_read = read(fd, buffer, sizeof(buffer))) > 0) { ... }`. -/
def copy_loop (fd : Int) (name : String) : Nat → List Byte → Sys → Res Int
  | 0, _, s => .timeout s
  | fuel + 1, buffer, s =>
    let r := sys_read fd buffer BUFFER_SIZE s
    let bytes_read := r.1
    if bytes_read > 0 then
      match write_loop name r.2.1 bytes_read fuel 0 r.2.2 with
      | .timeout s2 => .timeout s2
      | .done (.returned rc) s2 => .done rc s2
      | .done (.finished _) s2 => copy_loop fd name fuel r.2.1 s2
    else if bytes_read < 0 then
      .done (-1) (warn name r.2.2)
    else
      .done 0 r.2.2

/-- The function `copy_file(fd, name)` (lines 21-43).  The buffer is a local
array of `BUFFER_SIZE` bytes; its initial content is never read. -/
def copy_file (fuel : Nat) (fd : Int) (name : String) (s : Sys) : Res Int :=
  copy_loop fd name fuel (List.replicate BUFFER_SIZE 0) s

/-- The `for` loop of `main` over the operands `argv[i]`, `i = 1 .. argc-1`
(lines 65-89), carrying `exit_status`. -/
def main_loop (fuel : Nat) : List String → Int → Sys → Res Int
  | [], exit_status, s => .done exit_status s
  | arg :: rest, exit_status, s =>
    if arg = "-" then
      match copy_file fuel STDIN_FILENO "stdin" s with
      | .timeout s1 => .timeout s1
      | .done rc s1 =>
        main_loop fuel rest (if rc < 0 then EXIT_FAILURE else exit_status) s1
    else
      let o := sys_open arg s
      let fd := o.1
      if fd < 0 then
        main_loop fuel rest EXIT_FAILURE (warn arg o.2)
      else
        match copy_file fuel fd arg o.2 with
        | .timeout s2 => .timeout s2
        | .done rc s2 =>
          let exit_status1 := if rc < 0 then EXIT_FAILURE else exit_status
          let c := sys_close fd s2
          if c.1 < 0 then
            main_loop fuel rest EXIT_FAILURE (warn arg c.2)
          else
            main_loop fuel rest exit_status1 c.2

/-- The function `main(argc, argv)` (lines 55-93), with `argc = argv.length`
and `argv[0]` the program name. -/
def main (fuel : Nat) (argv : List String) (s : Sys) : Res Int :=
  if argv.length = 1 then
    match copy_file fuel STDIN_FILENO "stdin" s with
    | .timeout s1 => .timeout s1
    | .done rc s1 => .done (if rc < 0 then EXIT_FAILURE else EXIT_SUCCESS) s1
  else
    main_loop fuel (argv.drop 1) EXIT_SUCCESS s

/-! ## Concrete systems for evaluation -/

/-- A file system with the single file `"a"`, holding bytes 1, 2, 3. -/
def demoFs : String → Option (List Byte) :=
  fun p => if p = "a" then some [1, 2, 3] else none

/-- A system with file `"a"`, standard input `[7, 8]`, reads of at most 2
bytes, writes of at most 1 byte and no failure. -/
def demoSys : Sys where
  fs := demoFs
  stdin := [7, 8]
  fdtab := []
  stdout := []
  stderr := []
  trace := []
  clock := 0
  readO := fun _ => .avail 2
  writeO := fun _ => .accept 1
  closeO := fun _ => false


/-- A system whose standard input holds 7, 8, 9 and in which every `read` but
the first one fails; reads transfer at most 2 bytes. -/
def readFailSys : Sys where
  fs := demoFs
  stdin := [7, 8, 9]
  fdtab := []
  stdout := []
  stderr := []
  trace := []
  clock := 0
  readO := fun i => if i = 0 then .avail 2 else .error
  writeO := fun _ => .accept 5
  closeO := fun _ => false

/-- A system with file `"a"` in which every `read` and every `close` fails. -/
def copyCloseFailSys : Sys where
  fs := demoFs
  stdin := []
  fdtab := []
  stdout := []
  stderr := []
  trace := []
  clock := 0
  readO := fun _ => .error
  writeO := fun _ => .accept 1
  closeO := fun _ => true

/-- A system with no file at all, whose standard input holds the byte 9. -/
def stdinOnlySys : Sys where
  fs := fun _ => none
  stdin := [9]
  fdtab := []
  stdout := []
  stderr := []
  trace := []
  clock := 0
  readO := fun _ => .avail 1
  writeO := fun _ => .accept 1
  closeO := fun _ => false

/-- A system whose standard input holds 7, 8 and reads without error, and in
which every `write` fails. -/
def writeFailSys : Sys where
  fs := demoFs
  stdin := [7, 8]
  fdtab := []
  stdout := []
  stderr := []
  trace := []
  clock := 0
  readO := fun _ => .avail 2
  writeO := fun _ => .error
  closeO := fun _ => false

/-- A system whose standard input holds `n` bytes 5, with reads that fill the
buffer when they can and writes that accept at most 1000 bytes. -/
def boundarySys (n : Nat) : Sys where
  fs := fun _ => none
  stdin := List.replicate n 5
  fdtab := []
  stdout := []
  stderr := []
  trace := []
  clock := 0
  readO := fun _ => .avail 4096
  writeO := fun _ => .accept 1000
  closeO := fun _ => false

/-! ## Reading the log, and the vocabulary of the theorems -/

/-- An event records a failed call: a return value below zero. -/
def Event.failed : Event → Bool
  | .openCall _ r => decide (r < 0)
  | .readCall _ _ r => decide (r < 0)
  | .writeCall _ _ _ r => decide (r < 0)
  | .closeCall _ r => decide (r < 0)
  | .warnCall _ => false

/-- The number of failed calls in a log. -/
def failures (T : List Event) : Nat := T.countP Event.failed

/-- The display name of a diagnostic event. -/
def Event.warned : Event → Option String
  | .warnCall n => some n
  | _ => none

/-- The diagnostics of a log, by display name, in order. -/
def warnings (T : List Event) : List String := T.filterMap Event.warned

/-- An event is a `write`. -/
def Event.isWrite : Event → Bool
  | .writeCall _ _ _ _ => true
  | _ => false

/-- The number of `write` calls in a log. -/
def writeCalls (T : List Event) : Nat := T.countP Event.isWrite

/-- The state `s` after more output, more diagnostics, `k` more kernel calls
and more events. -/
def bump (s : Sys) (out : List Byte) (diag : List String) (k : Nat) (T : List Event) : Sys :=
  { s with stdout := s.stdout ++ out, stderr := s.stderr ++ diag,
           clock := s.clock + k, trace := s.trace ++ T }

/-- Every successful `write` accepts at least one byte. -/
def WriteProgress (s : Sys) : Prop := ∀ i, s.writeO i ≠ .accept 0

/-- No `write` fails. -/
def NoWriteError (s : Sys) : Prop := ∀ i, s.writeO i ≠ .error

/-- No `read` fails. -/
def NoReadError (s : Sys) : Prop := ∀ i, s.readO i ≠ .error

/-- No `close` fails. -/
def NoCloseError (s : Sys) : Prop := ∀ i, s.closeO i = false

/-- An event the inner loop may log while it writes a chunk of `n` bytes for
the display name `name`: a `write` to standard output of the non-empty slice
from `off` to `n`, or the diagnostic. -/
def WriteEvent (name : String) (n : Int) : Event → Prop
  | .writeCall fd off cnt ret =>
      fd = STDOUT_FILENO ∧ 0 ≤ off ∧ 0 < cnt ∧ off + cnt = n ∧ -1 ≤ ret ∧ ret ≤ cnt
  | .warnCall nm => nm = name
  | _ => False

/-- How the log `T` of the inner loop relates to the way the loop ended,
`t` being the number of bytes of the chunk written. -/
def WriteEnd (name : String) (n t : Nat) (T : List Event) : Option LoopExit → Prop
  | none => failures T = 0 ∧ warnings T = []
  | some (.finished x) => x = n ∧ t = n ∧ failures T = 0 ∧ warnings T = []
  | some (.returned rc) => rc = -1 ∧ t < n ∧ ∃ T0,
      T = T0 ++ [.writeCall STDOUT_FILENO t ((n : Int) - t) (-1), .warnCall name] ∧
      failures T0 = 0 ∧ warnings T0 = []

/-- An event records a `read` that returned 0, the end of the data. -/
def Event.isEof : Event → Bool
  | .readCall _ _ r => decide (r = 0)
  | _ => false

/-- The number of end-of-data reads in a log. -/
def eofReads (T : List Event) : Nat := T.countP Event.isEof

/-- A log without a failed call, a diagnostic or an end-of-data read. -/
def Quiet (T : List Event) : Prop := failures T = 0 ∧ warnings T = [] ∧ eofReads T = 0

/-- The number of bytes one `read` of `copy_file` transfers when the schedule
says `k` and `len` bytes are unread. -/
def chunk (k len : Nat) : Nat := min (max k 1) (min BUFFER_SIZE len)

/-- An event `copy_file(fd, name)` may log: a `read` of `fd` into the whole
buffer, a `write` to standard output of a non-empty slice inside the buffer,
or a diagnostic for `name`. -/
def CopyEvent (fd : Int) (name : String) : Event → Prop
  | .readCall f c r => f = fd ∧ c = BUFFER_SIZE ∧ -1 ≤ r ∧ r ≤ (BUFFER_SIZE : Int)
  | .writeCall f off cnt ret =>
      f = STDOUT_FILENO ∧ 0 ≤ off ∧ 0 < cnt ∧ off + cnt ≤ (BUFFER_SIZE : Int) ∧
        -1 ≤ ret ∧ ret ≤ cnt
  | .warnCall nm => nm = name
  | _ => False

/-- How the log `T` of `copy_file(fd, name)` relates to the way the call
ended, `rest` being the unread bytes of the source at the start, `n` the
number of bytes read and `out` the bytes written. -/
def CopyEnd (fd : Int) (name : String) (rest : List Byte) (n : Nat) (out : List Byte)
    (T : List Event) : Option Int → Prop
  | none => Quiet T
  | some rc =>
      (rc = 0 ∧ n = rest.length ∧ out = rest ∧
        ∃ T0, T = T0 ++ [.readCall fd BUFFER_SIZE 0] ∧ Quiet T0) ∨
      (rc = -1 ∧ ∃ T0, Quiet T0 ∧
        ((T = T0 ++ [.readCall fd BUFFER_SIZE (-1), .warnCall name] ∧ out = rest.take n) ∨
         (∃ off cnt, T = T0 ++ [.writeCall STDOUT_FILENO off cnt (-1), .warnCall name])))

/-- The display name of an operand: `"stdin"` for `-`, else the path. -/
def displayName (op : String) : String := if op = "-" then "stdin" else op

/-- The bytes behind an operand in state `s`: the unread bytes of standard
input for `-`, else the content of the file (nothing when it cannot be
opened). -/
def operandContent (s : Sys) (op : String) : List Byte :=
  if op = "-" then s.stdin else (s.fs op).getD []

/-- The operands `main` processes for the argument vector `argv`: those after
`argv[0]`, and the single operand `-` when `argc = 1`. -/
def operands (argv : List String) : List String :=
  if argv.length = 1 then ["-"] else argv.drop 1

/-- One iteration of the `for` loop of `main`, for operand `arg`; the value
says whether the iteration assigned `EXIT_FAILURE` to `exit_status`. -/
def operand_step (fuel : Nat) (arg : String) (s : Sys) : Res Bool :=
  if arg = "-" then
    match copy_file fuel STDIN_FILENO "stdin" s with
    | .timeout s1 => .timeout s1
    | .done rc s1 => .done (decide (rc < 0)) s1
  else
    let o := sys_open arg s
    if o.1 < 0 then
      .done true (warn arg o.2)
    else
      match copy_file fuel o.1 arg o.2 with
      | .timeout s2 => .timeout s2
      | .done rc s2 =>
        let c := sys_close o.1 s2
        if c.1 < 0 then .done true (warn arg c.2) else .done (decide (rc < 0)) c.2

/-- The state `s` with one more open file. -/
def withFile (s : Sys) (fd : Int) (c : List Byte) : Sys :=
  { s with fdtab := (fd, c) :: s.fdtab }

/-- One step of the descriptor automaton.  The state is the descriptor of the
file the program holds open, if any.  An `open` is allowed only while no file
is held; a `read` only from standard input or from the file held; a `close`
only of the file held, never of standard input. -/
def fdStep (cur : Option Int) : Event → Option (Option Int)
  | .openCall _ ret =>
      if cur.isSome then none else if ret < 0 then some none else some (some ret)
  | .readCall fd _ _ => if fd = STDIN_FILENO ∨ cur = some fd then some cur else none
  | .closeCall fd _ => if fd ≠ STDIN_FILENO ∧ cur = some fd then some none else none
  | .writeCall _ _ _ _ => some cur
  | .warnCall _ => some cur

/-- Run the descriptor automaton over a log; `none` when a call breaks the
discipline, else the file held at the end. -/
def fdDiscipline (cur : Option Int) : List Event → Option (Option Int)
  | [] => some cur
  | e :: T =>
    match fdStep cur e with
    | none => none
    | some c => fdDiscipline c T

/-- An event that one iteration of the `for` loop may log for operand `op`. -/
def Belongs (op : String) : Event → Prop
  | .openCall p _ => op ≠ "-" ∧ p = op
  | .readCall fd c _ => (fd = STDIN_FILENO ↔ op = "-") ∧ c = BUFFER_SIZE
  | .writeCall fd off cnt _ =>
      fd = STDOUT_FILENO ∧ 0 ≤ off ∧ 0 < cnt ∧ off + cnt ≤ (BUFFER_SIZE : Int)
  | .closeCall fd _ => op ≠ "-" ∧ fd ≠ STDIN_FILENO
  | .warnCall n => n = displayName op

/-- Everything the proofs need about one iteration of the `for` loop: `r` is
its result from state `s`, `out` the bytes it wrote and `T` the calls it
logged. -/
structure StepRun (fuel : Nat) (arg : String) (s : Sys) (r : Res Bool) (out : List Byte)
    (T : List Event) : Prop where
  fs : r.state.fs = s.fs
  readO : r.state.readO = s.readO
  writeO : r.state.writeO = s.writeO
  closeO : r.state.closeO = s.closeO
  stdout : r.state.stdout = s.stdout ++ out
  stderr : r.state.stderr = s.stderr ++ warnings T
  trace : r.state.trace = s.trace ++ T
  stdin_le : r.state.stdin.length ≤ s.stdin.length
  stdin_file : arg ≠ "-" → r.state.stdin = s.stdin
  fdtab : r.value ≠ none → r.state.fdtab = s.fdtab
  belongs : ∀ e ∈ T, Belongs arg e
  diags : warnings T = List.replicate (failures T) (displayName arg)
  atmost : failures T ≤ 2
  atmost_stdin : arg = "-" → failures T ≤ 1
  status : ∀ b, r.value = some b → (b = true ↔ 0 < failures T)
  clean : r.value = some false →
    out = operandContent s arg ∧ (arg = "-" → r.state.stdin = [])
  unopened : arg ≠ "-" → s.fs arg = none → r.value = some true ∧ out = [] ∧ failures T = 1
  noerr : NoReadError s → NoWriteError s → NoCloseError s →
    (arg = "-" ∨ s.fs arg ≠ none) → failures T = 0
  terminates : WriteProgress s → (operandContent s arg).length + 2 ≤ fuel → r.value ≠ none
  discipline : ∃ cur, fdDiscipline none T = some cur ∧ (r.value ≠ none → cur = none)

/-- Fuel that suffices for `main` on the operands `ops` from state `s`: the
length of standard input plus the lengths of the files named, plus two. -/
def fuelNeeded (s : Sys) (ops : List String) : Nat :=
  s.stdin.length
    + (ops.map (fun op => if op = "-" then 0 else ((s.fs op).getD []).length)).sum + 2

/-- The calls logged for one operand: each belongs to the operand, at most
two of them failed, at most one when the operand is standard input. -/
def SegmentOf (op : String) (seg : List Event) : Prop :=
  (∀ e ∈ seg, Belongs op e) ∧ failures seg ≤ 2 ∧ (op = "-" → failures seg ≤ 1)

/-- The diagnostics expected from the per-operand logs `segs`: for each
operand in turn, its display name once per failed call in its log. -/
def diagsOf (ops : List String) (segs : List (List Event)) : List String :=
  (List.zipWith (fun op seg => List.replicate (failures seg) (displayName op)) ops segs).flatten

/-- An operand that fails to open: a path that is not `-` and that the file
system cannot open for reading. -/
def unopened (fs : String → Option (List Byte)) (op : String) : Bool :=
  op ≠ "-" && (fs op).isNone

/-- The bytes a run without read, write or close failure copies for the
operands `ops`: for a file its content (nothing when it cannot be opened), for
`-` the bytes of standard input still unread at that point. -/
def expectedOut (fs : String → Option (List Byte)) : List Byte → List String → List Byte
  | _, [] => []
  | stdin, op :: rest =>
    if op = "-" then stdin ++ expectedOut fs [] rest
    else (fs op).getD [] ++ expectedOut fs stdin rest

/-- The unread bytes of standard input after such a run. -/
def stdinAfter (stdin : List Byte) (ops : List String) : List Byte :=
  if "-" ∈ ops then [] else stdin

/-- An event records an `open` that succeeded. -/
def Event.isOpened : Event → Bool
  | .openCall _ r => decide (0 ≤ r)
  | _ => false

/-- An event is a `close`. -/
def Event.isClose : Event → Bool
  | .closeCall _ _ => true
  | _ => false

/-! # Lemmas -/

/-! ## Reading the log -/

theorem bump_nil (s : Sys) : bump s [] [] 0 [] = s := by
  cases s; simp [bump]

theorem bump_bump (s : Sys) (o1 o2 : List Byte) (d1 d2 : List String) (k1 k2 : Nat)
    (T1 T2 : List Event) :
    bump (bump s o1 d1 k1 T1) o2 d2 k2 T2 = bump s (o1 ++ o2) (d1 ++ d2) (k1 + k2) (T1 ++ T2) := by
  simp [bump, Nat.add_assoc]

@[simp] theorem bump_fs (s : Sys) (o d k T) : (bump s o d k T).fs = s.fs := rfl
@[simp] theorem bump_stdin (s : Sys) (o d k T) : (bump s o d k T).stdin = s.stdin := rfl
@[simp] theorem bump_fdtab (s : Sys) (o d k T) : (bump s o d k T).fdtab = s.fdtab := rfl
@[simp] theorem bump_stdout (s : Sys) (o d k T) : (bump s o d k T).stdout = s.stdout ++ o := rfl
@[simp] theorem bump_stderr (s : Sys) (o d k T) : (bump s o d k T).stderr = s.stderr ++ d := rfl
@[simp] theorem bump_clock (s : Sys) (o d k T) : (bump s o d k T).clock = s.clock + k := rfl
@[simp] theorem bump_trace (s : Sys) (o d k T) : (bump s o d k T).trace = s.trace ++ T := rfl
@[simp] theorem bump_readO (s : Sys) (o d k T) : (bump s o d k T).readO = s.readO := rfl
@[simp] theorem bump_writeO (s : Sys) (o d k T) : (bump s o d k T).writeO = s.writeO := rfl
@[simp] theorem bump_closeO (s : Sys) (o d k T) : (bump s o d k T).closeO = s.closeO := rfl

theorem source_bump (s : Sys) (o d k T) (fd : Int) : source (bump s o d k T) fd = source s fd := rfl

theorem warn_eq (name : String) (s : Sys) :
    warn name s = bump s [] [name] 0 [.warnCall name] := by
  simp [warn, bump, logEvent]

theorem sys_write_error (buffer : List Byte) (off count : Int) (s : Sys)
    (h : s.writeO s.clock = .error) :
    sys_write STDOUT_FILENO buffer off count s
      = (-1, bump s [] [] 1 [.writeCall STDOUT_FILENO off count (-1)]) := by
  simp [sys_write, h, bump, logEvent, tick]

theorem sys_write_accept (buffer : List Byte) (off count : Int) (s : Sys) (k : Nat)
    (h : s.writeO s.clock = .accept k) :
    sys_write STDOUT_FILENO buffer off count s
      = (((min k count.toNat : Nat) : Int),
          bump s (((buffer.drop off.toNat).take count.toNat).take (min k count.toNat)) [] 1
            [.writeCall STDOUT_FILENO off count (min k count.toNat : Nat)]) := by
  simp [sys_write, h, bump, logEvent, tick]

theorem failures_append (A B : List Event) : failures (A ++ B) = failures A + failures B := by
  simp [failures]

theorem warnings_append (A B : List Event) : warnings (A ++ B) = warnings A ++ warnings B := by
  simp [warnings]

theorem writeCalls_append (A B : List Event) :
    writeCalls (A ++ B) = writeCalls A + writeCalls B := by
  simp [writeCalls]

/-! ## The inner loop, one iteration at a time -/

theorem write_loop_zero (name : String) (buffer : List Byte) (n : Int) (t : Int) (s : Sys) :
    write_loop name buffer n 0 t s = .timeout s := rfl

theorem write_loop_exit (name : String) (buffer : List Byte) (n : Int) (fuel : Nat) (t : Int)
    (s : Sys) (h : ¬ t < n) :
    write_loop name buffer n (fuel + 1) t s = .done (.finished t) s := by
  simp [write_loop, h]

theorem write_loop_error (name : String) (buffer : List Byte) (n : Int) (fuel : Nat) (t : Int)
    (s : Sys) (h : t < n) (ho : s.writeO s.clock = .error) :
    write_loop name buffer n (fuel + 1) t s
      = .done (.returned (-1))
          (bump s [] [name] 1 [.writeCall STDOUT_FILENO t (n - t) (-1), .warnCall name]) := by
  simp [write_loop, h, sys_write_error _ _ _ _ ho, warn_eq, bump_bump]

theorem write_loop_accept (name : String) (buffer : List Byte) (n : Nat) (fuel : Nat) (t : Nat)
    (s : Sys) (k : Nat) (h : t < n) (ho : s.writeO s.clock = .accept k) :
    write_loop name buffer n (fuel + 1) t s
      = write_loop name buffer n fuel ((t + min k (n - t) : Nat) : Int)
          (bump s ((buffer.drop t).take (min k (n - t))) [] 1
            [.writeCall STDOUT_FILENO t ((n : Int) - t) (min k (n - t) : Nat)]) := by
  have h1 : ((n : Int) - (t : Int)).toNat = n - t := by omega
  have h2 : (t : Int) < (n : Int) := by exact_mod_cast h
  rw [write_loop]
  simp only [h2, if_true, sys_write_accept _ _ _ _ _ ho, h1]
  have h3 : ¬ (((min k (n - t) : Nat) : Int) < 0) := by omega
  simp only [h3, if_false, Int.toNat_ofNat, List.take_take]
  have h4 : min (min k (n - t)) (n - t) = min k (n - t) := by omega
  simp [h4]

theorem take_drop_glue (l : List Byte) (t m t' : Nat) (h : t + m ≤ t') :
    (l.drop t).take m ++ (l.drop (t + m)).take (t' - (t + m)) = (l.drop t).take (t' - t) := by
  have e : t' - t = m + (t' - (t + m)) := by omega
  rw [e, List.take_add, List.drop_drop]

theorem write_loop_run (name : String) (buffer : List Byte) (n : Nat) :
    ∀ (fuel t : Nat) (s : Sys), t ≤ n →
      ∃ (t' k : Nat) (T : List Event), t ≤ t' ∧ t' ≤ n ∧
        (write_loop name buffer n fuel t s).state
          = bump s ((buffer.drop t).take (t' - t)) (warnings T) k T ∧
        (∀ e ∈ T, WriteEvent name n e) ∧
        WriteEnd name n t' T (write_loop name buffer n fuel t s).value ∧
        (WriteProgress s → writeCalls T ≤ n - t) ∧
        (WriteProgress s → n - t < fuel → (write_loop name buffer n fuel t s).value ≠ none) ∧
        (NoWriteError s → failures T = 0) := by
  intro fuel
  induction fuel with
  | zero =>
    intro t s ht
    refine ⟨t, 0, [], le_refl _, ht, ?_, ?_, ?_, ?_, ?_, ?_⟩
    · simp [write_loop_zero, Res.state, warnings, bump_nil]
    · simp
    · simp [write_loop_zero, Res.value, WriteEnd, failures, warnings]
    · intro _; simp [writeCalls]
    · intro _ h; omega
    · intro _; simp [failures]
  | succ fuel ih =>
    intro t s ht
    by_cases h : t < n
    · cases ho : s.writeO s.clock with
      | error =>
        have hI : (t : Int) < (n : Int) := by exact_mod_cast h
        refine ⟨t, 1, [.writeCall STDOUT_FILENO t ((n : Int) - t) (-1), .warnCall name],
          le_refl _, ht, ?_, ?_, ?_, ?_, ?_, ?_⟩
        · rw [write_loop_error name buffer n fuel t s hI ho]
          simp [Res.state, warnings, Event.warned]
        · intro e he
          simp only [List.mem_cons, List.mem_singleton, List.not_mem_nil, or_false] at he
          rcases he with rfl | rfl
          · simp only [WriteEvent]
            refine ⟨trivial, ?_, ?_, ?_, ?_, ?_⟩ <;> omega
          · simp [WriteEvent]
        · rw [write_loop_error name buffer n fuel t s hI ho]
          simp only [Res.value, WriteEnd]
          exact ⟨trivial, h, [], by simp, by simp [failures], by simp [warnings]⟩
        · intro _
          simp [writeCalls, Event.isWrite]; omega
        · intro _ _
          rw [write_loop_error name buffer n fuel t s hI ho]
          simp [Res.value]
        · intro hne
          exact absurd ho (hne _)
      | accept k =>
        rw [write_loop_accept name buffer n fuel t s k h ho]
        have hm : t + min k (n - t) ≤ n := by omega
        obtain ⟨t', k', T', h1, h2, h3, h4, h5, h6, h7, h8⟩ :=
          ih (t + min k (n - t))
            (bump s ((buffer.drop t).take (min k (n - t))) [] 1
              [.writeCall STDOUT_FILENO t ((n : Int) - t) (min k (n - t) : Nat)]) hm
        refine ⟨t', 1 + k',
          .writeCall STDOUT_FILENO t ((n : Int) - t) (min k (n - t) : Nat) :: T',
          by omega, h2, ?_, ?_, ?_, ?_, ?_, ?_⟩
        · rw [h3, bump_bump, take_drop_glue buffer t _ t' h1]
          simp [warnings, Event.warned]
        · intro e he
          rcases List.mem_cons.mp he with rfl | he
          · simp only [WriteEvent]
            refine ⟨trivial, ?_, ?_, ?_, ?_, ?_⟩ <;> omega
          · exact h4 e he
        · revert h5
          cases (write_loop name buffer n fuel ((t + min k (n - t) : Nat) : Int)
              (bump s ((buffer.drop t).take (min k (n - t))) [] 1
                [.writeCall STDOUT_FILENO t ((n : Int) - t) (min k (n - t) : Nat)])).value with
          | none =>
            simp only [WriteEnd]
            rintro ⟨a, b⟩
            refine ⟨?_, ?_⟩
            · have : failures (Event.writeCall STDOUT_FILENO t ((n : Int) - t)
                  (min k (n - t) : Nat) :: T') = failures T' := by
                simp [failures, Event.failed]
              omega
            · simpa [warnings, Event.warned] using b
          | some ex =>
            cases ex with
            | finished x =>
              simp only [WriteEnd]
              rintro ⟨a, b, c, d⟩
              refine ⟨a, b, ?_, ?_⟩
              · have : failures (Event.writeCall STDOUT_FILENO t ((n : Int) - t)
                    (min k (n - t) : Nat) :: T') = failures T' := by
                  simp [failures, Event.failed]
                omega
              · simpa [warnings, Event.warned] using d
            | returned rc =>
              simp only [WriteEnd]
              rintro ⟨a, b, T0, c, d, e⟩
              refine ⟨a, b, .writeCall STDOUT_FILENO t ((n : Int) - t)
                (min k (n - t) : Nat) :: T0, ?_, ?_, ?_⟩
              · simp [c]
              · have : failures (Event.writeCall STDOUT_FILENO t ((n : Int) - t)
                    (min k (n - t) : Nat) :: T0) = failures T0 := by
                  simp [failures, Event.failed]
                omega
              · simpa [warnings, Event.warned] using e
        · intro hp
          have hk : k ≠ 0 := by
            intro hk
            exact hp s.clock (by rw [ho, hk])
          have := h6 hp
          have hw : writeCalls (Event.writeCall STDOUT_FILENO t ((n : Int) - t)
              (min k (n - t) : Nat) :: T') = writeCalls T' + 1 := by
            simp [writeCalls, Event.isWrite]
          omega
        · intro hp hf
          have hk : k ≠ 0 := by
            intro hk
            exact hp s.clock (by rw [ho, hk])
          exact h7 hp (by omega)
        · intro hne
          have := h8 hne
          have hw : failures (Event.writeCall STDOUT_FILENO t ((n : Int) - t)
              (min k (n - t) : Nat) :: T') = failures T' := by
            simp [failures, Event.failed]
          omega
    · have hI : ¬ ((t : Int) < (n : Int)) := by exact_mod_cast h
      have htn : t = n := by omega
      refine ⟨t, 0, [], le_refl _, ht, ?_, ?_, ?_, ?_, ?_, ?_⟩
      · simp [write_loop_exit name buffer n fuel t s hI, Res.state, warnings, bump_nil]
      · simp
      · rw [write_loop_exit name buffer n fuel t s hI]
        simp [Res.value, WriteEnd, failures, warnings, htn]
      · intro _; simp [writeCalls]
      · intro _ _
        rw [write_loop_exit name buffer n fuel t s hI]
        simp [Res.value]
      · intro _; simp [failures]

/-! ## Descriptor table and source lemmas -/

theorem lookupFd_updateFd (tab : List (Int × List Byte)) (fd : Int) (x r : List Byte)
    (h : lookupFd tab fd = some x) : lookupFd (updateFd tab fd r) fd = some r := by
  induction tab with
  | nil => simp [lookupFd] at h
  | cons e t ih =>
    by_cases he : e.1 = fd
    · simp [updateFd, lookupFd, he]
    · simp only [lookupFd, he, if_false] at h
      simp [updateFd, lookupFd, he, ih h]

theorem updateFd_updateFd (tab : List (Int × List Byte)) (fd : Int) (r1 r2 : List Byte) :
    updateFd (updateFd tab fd r1) fd r2 = updateFd tab fd r2 := by
  induction tab with
  | nil => rfl
  | cons e t ih =>
    by_cases he : e.1 = fd
    · simp [updateFd, he]
    · simp [updateFd, he, ih]

theorem updateFd_self (tab : List (Int × List Byte)) (fd : Int) (x : List Byte)
    (h : lookupFd tab fd = some x) : updateFd tab fd x = tab := by
  induction tab with
  | nil => rfl
  | cons e t ih =>
    by_cases he : e.1 = fd
    · simp only [lookupFd, he, if_true, Option.some.injEq] at h
      simp only [updateFd, he, if_true]
      rw [← h, ← he]
    · simp only [lookupFd, he, if_false] at h
      simp [updateFd, he, ih h]

theorem lowestFree_ge (used : List Int) : ∀ (n : Nat) (k : Int), k ≤ lowestFree used n k := by
  intro n
  induction n with
  | zero => intro k; simp [lowestFree]
  | succ n ih =>
    intro k
    simp only [lowestFree]
    split
    · exact le_trans (by omega) (ih (k + 1))
    · exact le_refl _

theorem allocFd_ge (tab : List (Int × List Byte)) : 3 ≤ allocFd tab :=
  lowestFree_ge _ _ _

@[simp] theorem setSource_fs (s : Sys) (fd r) : (setSource s fd r).fs = s.fs := by
  unfold setSource; split <;> rfl
@[simp] theorem setSource_stdout (s : Sys) (fd r) : (setSource s fd r).stdout = s.stdout := by
  unfold setSource; split <;> rfl
@[simp] theorem setSource_stderr (s : Sys) (fd r) : (setSource s fd r).stderr = s.stderr := by
  unfold setSource; split <;> rfl
@[simp] theorem setSource_trace (s : Sys) (fd r) : (setSource s fd r).trace = s.trace := by
  unfold setSource; split <;> rfl
@[simp] theorem setSource_clock (s : Sys) (fd r) : (setSource s fd r).clock = s.clock := by
  unfold setSource; split <;> rfl
@[simp] theorem setSource_readO (s : Sys) (fd r) : (setSource s fd r).readO = s.readO := by
  unfold setSource; split <;> rfl
@[simp] theorem setSource_writeO (s : Sys) (fd r) : (setSource s fd r).writeO = s.writeO := by
  unfold setSource; split <;> rfl
@[simp] theorem setSource_closeO (s : Sys) (fd r) : (setSource s fd r).closeO = s.closeO := by
  unfold setSource; split <;> rfl

theorem setSource_stdin_zero (s : Sys) (r : List Byte) :
    (setSource s STDIN_FILENO r).stdin = r := by
  simp [setSource]

theorem setSource_fdtab_zero (s : Sys) (r : List Byte) :
    (setSource s STDIN_FILENO r).fdtab = s.fdtab := by
  simp [setSource]

theorem setSource_stdin_ne (s : Sys) (fd : Int) (r : List Byte) (h : fd ≠ STDIN_FILENO) :
    (setSource s fd r).stdin = s.stdin := by
  simp [setSource, h]

theorem setSource_fdtab_ne (s : Sys) (fd : Int) (r : List Byte) (h : fd ≠ STDIN_FILENO) :
    (setSource s fd r).fdtab = updateFd s.fdtab fd r := by
  simp [setSource, h]

theorem source_setSource (s : Sys) (fd : Int) (x r : List Byte) (h : source s fd = some x) :
    source (setSource s fd r) fd = some r := by
  unfold source setSource at *
  by_cases h0 : fd = STDIN_FILENO
  · simp [h0]
  · simp only [h0, if_false] at h ⊢
    exact lookupFd_updateFd _ _ _ _ h

theorem setSource_setSource (s : Sys) (fd : Int) (r1 r2 : List Byte) :
    setSource (setSource s fd r1) fd r2 = setSource s fd r2 := by
  unfold setSource
  by_cases h0 : fd = STDIN_FILENO
  · simp [h0]
  · simp [h0, updateFd_updateFd]

theorem setSource_self (s : Sys) (fd : Int) (x : List Byte) (h : source s fd = some x) :
    setSource s fd x = s := by
  unfold source at h
  unfold setSource
  by_cases h0 : fd = STDIN_FILENO
  · simp only [h0, if_true, Option.some.injEq] at h ⊢
    rw [← h]
  · simp only [h0, if_false] at h ⊢
    rw [updateFd_self _ _ _ h]

theorem setSource_bump (s : Sys) (fd : Int) (r : List Byte) (o d k T) :
    setSource (bump s o d k T) fd r = bump (setSource s fd r) o d k T := by
  unfold setSource
  split <;> rfl

theorem sys_read_bad (fd : Int) (buffer : List Byte) (count : Nat) (s : Sys)
    (h : source s fd = none) :
    sys_read fd buffer count s = (-1, buffer, bump s [] [] 0 [.readCall fd count (-1)]) := by
  simp [sys_read, h, bump, logEvent]

theorem sys_read_error (fd : Int) (buffer : List Byte) (count : Nat) (s : Sys)
    (rest : List Byte) (h : source s fd = some rest) (ho : s.readO s.clock = .error) :
    sys_read fd buffer count s = (-1, buffer, bump s [] [] 1 [.readCall fd count (-1)]) := by
  simp [sys_read, h, ho, bump, logEvent, tick]

theorem sys_read_avail (fd : Int) (buffer : List Byte) (count : Nat) (s : Sys)
    (rest : List Byte) (k : Nat) (h : source s fd = some rest) (ho : s.readO s.clock = .avail k) :
    sys_read fd buffer count s
      = (((min (max k 1) (min count rest.length) : Nat) : Int),
          rest.take (min (max k 1) (min count rest.length))
            ++ buffer.drop (min (max k 1) (min count rest.length)),
          bump (setSource s fd (rest.drop (min (max k 1) (min count rest.length)))) [] [] 1
            [.readCall fd count (min (max k 1) (min count rest.length) : Nat)]) := by
  simp [sys_read, h, ho, bump, logEvent, tick]

/-! ## The outer loop, one iteration at a time -/

theorem copy_loop_zero (fd : Int) (name : String) (buffer : List Byte) (s : Sys) :
    copy_loop fd name 0 buffer s = .timeout s := rfl

theorem copy_loop_bad (fd : Int) (name : String) (fuel : Nat) (buffer : List Byte) (s : Sys)
    (h : source s fd = none) :
    copy_loop fd name (fuel + 1) buffer s
      = .done (-1) (bump s [] [name] 0 [.readCall fd BUFFER_SIZE (-1), .warnCall name]) := by
  simp [copy_loop, sys_read_bad _ _ _ _ h, warn_eq, bump_bump]

theorem copy_loop_error (fd : Int) (name : String) (fuel : Nat) (buffer : List Byte) (s : Sys)
    (rest : List Byte) (h : source s fd = some rest) (ho : s.readO s.clock = .error) :
    copy_loop fd name (fuel + 1) buffer s
      = .done (-1) (bump s [] [name] 1 [.readCall fd BUFFER_SIZE (-1), .warnCall name]) := by
  simp [copy_loop, sys_read_error _ _ _ _ _ h ho, warn_eq, bump_bump]

theorem copy_loop_eof (fd : Int) (name : String) (fuel : Nat) (buffer : List Byte) (s : Sys)
    (k : Nat) (h : source s fd = some []) (ho : s.readO s.clock = .avail k) :
    copy_loop fd name (fuel + 1) buffer s
      = .done 0 (bump s [] [] 1 [.readCall fd BUFFER_SIZE 0]) := by
  simp [copy_loop, sys_read_avail _ _ _ _ _ _ h ho, setSource_self _ _ _ h]

theorem copy_loop_data (fd : Int) (name : String) (fuel : Nat) (buffer : List Byte) (s : Sys)
    (rest : List Byte) (k : Nat) (h : source s fd = some rest) (hne : rest ≠ [])
    (ho : s.readO s.clock = .avail k) :
    copy_loop fd name (fuel + 1) buffer s
      = match write_loop name (rest.take (chunk k rest.length) ++ buffer.drop (chunk k rest.length))
            (chunk k rest.length : Nat) fuel 0
            (bump (setSource s fd (rest.drop (chunk k rest.length))) [] [] 1
              [.readCall fd BUFFER_SIZE (chunk k rest.length : Nat)]) with
        | .timeout s2 => .timeout s2
        | .done (.returned rc) s2 => .done rc s2
        | .done (.finished _) s2 =>
          copy_loop fd name fuel
            (rest.take (chunk k rest.length) ++ buffer.drop (chunk k rest.length)) s2 := by
  have hl : 0 < rest.length := List.length_pos.mpr hne
  have hc : 0 < chunk k rest.length := by
    unfold chunk BUFFER_SIZE; omega
  have hc' : ((chunk k rest.length : Nat) : Int) > 0 := by exact_mod_cast hc
  rw [copy_loop]
  simp only [sys_read_avail _ _ _ _ _ _ h ho]
  rw [show min (max k 1) (min BUFFER_SIZE rest.length) = chunk k rest.length from rfl]
  simp only [hc', if_true]

theorem chunk_le_len (k len : Nat) : chunk k len ≤ len := by
  unfold chunk; omega

theorem chunk_le_size (k len : Nat) : chunk k len ≤ BUFFER_SIZE := by
  unfold chunk; omega

theorem chunk_pos (k len : Nat) (h : 0 < len) : 0 < chunk k len := by
  unfold chunk BUFFER_SIZE; omega

theorem eofReads_append (A B : List Event) : eofReads (A ++ B) = eofReads A + eofReads B := by
  simp [eofReads]

theorem quiet_nil : Quiet [] := by
  simp [Quiet, failures, warnings, eofReads]

theorem quiet_append (A B : List Event) : Quiet (A ++ B) ↔ Quiet A ∧ Quiet B := by
  simp only [Quiet, failures_append, warnings_append, eofReads_append, List.append_eq_nil,
    Nat.add_eq_zero_iff]
  tauto

theorem quiet_read (fd : Int) (c m : Nat) (h : 0 < m) : Quiet [.readCall fd c (m : Nat)] := by
  have h1 : ¬ ((m : Int) < 0) := by omega
  have h2 : ¬ ((m : Int) = 0) := by omega
  simp [Quiet, failures, warnings, eofReads, Event.failed, Event.warned, Event.isEof, h1, h2]

theorem eofReads_of_write (name : String) (n : Int) (T : List Event)
    (h : ∀ e ∈ T, WriteEvent name n e) : eofReads T = 0 := by
  induction T with
  | nil => rfl
  | cons e t ih =>
    have he := h e (List.mem_cons_self _ _)
    have := ih (fun x hx => h x (List.mem_cons_of_mem _ hx))
    cases e <;> simp_all [eofReads, Event.isEof, WriteEvent]

theorem copyEvent_of_write (fd : Int) (name : String) (n : Nat) (e : Event)
    (hn : n ≤ BUFFER_SIZE) (h : WriteEvent name n e) : CopyEvent fd name e := by
  cases e with
  | writeCall f off cnt ret =>
    simp only [WriteEvent, CopyEvent] at h ⊢
    obtain ⟨a, b, c, d, e, f⟩ := h
    refine ⟨a, b, c, ?_, e, f⟩
    have : (n : Int) ≤ (BUFFER_SIZE : Int) := by exact_mod_cast hn
    omega
  | warnCall nm => exact h
  | openCall _ _ => exact h.elim
  | readCall _ _ _ => exact h.elim
  | closeCall _ _ => exact h.elim

theorem take_buffer (rest X : List Byte) (t m : Nat) (h1 : t ≤ m) (h2 : m ≤ rest.length) :
    (rest.take m ++ X).take t = rest.take t := by
  rw [List.take_append_of_le_length (by simp; omega), List.take_take]
  congr 1
  omega

theorem failures_read_ok (fd : Int) (c m : Nat) (T : List Event) :
    failures (.readCall fd c (m : Nat) :: T) = failures T := by
  have h1 : ¬ ((m : Int) < 0) := by omega
  simp [failures, Event.failed, h1]

theorem warnings_read (fd : Int) (c : Nat) (r : Int) (T : List Event) :
    warnings (.readCall fd c r :: T) = warnings T := by
  simp [warnings, Event.warned]

theorem writeProgress_congr (s s' : Sys) (h : s'.writeO = s.writeO) (hp : WriteProgress s) :
    WriteProgress s' := by
  intro i; rw [h]; exact hp i

theorem noWriteError_congr (s s' : Sys) (h : s'.writeO = s.writeO) (hp : NoWriteError s) :
    NoWriteError s' := by
  intro i; rw [h]; exact hp i

theorem noReadError_congr (s s' : Sys) (h : s'.readO = s.readO) (hp : NoReadError s) :
    NoReadError s' := by
  intro i; rw [h]; exact hp i

theorem noCloseError_congr (s s' : Sys) (h : s'.closeO = s.closeO) (hp : NoCloseError s) :
    NoCloseError s' := by
  intro i; rw [h]; exact hp i

theorem copy_loop_run (fd : Int) (name : String) :
    ∀ (fuel : Nat) (buffer : List Byte) (s : Sys) (rest : List Byte),
      source s fd = some rest →
      ∃ (n : Nat) (out : List Byte) (k : Nat) (T : List Event), n ≤ rest.length ∧
        (copy_loop fd name fuel buffer s).state
          = bump (setSource s fd (rest.drop n)) out (warnings T) k T ∧
        out <+: rest.take n ∧
        (∀ e ∈ T, CopyEvent fd name e) ∧
        CopyEnd fd name rest n out T (copy_loop fd name fuel buffer s).value ∧
        (WriteProgress s → rest.length + 2 ≤ fuel →
          (copy_loop fd name fuel buffer s).value ≠ none) ∧
        (NoReadError s → NoWriteError s → failures T = 0) := by
  intro fuel
  induction fuel with
  | zero =>
    intro buffer s rest hsrc
    refine ⟨0, [], 0, [], Nat.zero_le _, ?_, ?_, ?_, ?_, ?_, ?_⟩
    · simp [copy_loop_zero, Res.state, warnings, bump_nil, setSource_self _ _ _ hsrc]
    · simp
    · simp
    · simp only [copy_loop_zero, Res.value, CopyEnd]; exact quiet_nil
    · intro _ h; omega
    · intro _ _; simp [failures]
  | succ fuel ih =>
    intro buffer s rest hsrc
    cases ho : s.readO s.clock with
    | error =>
      rw [copy_loop_error fd name fuel buffer s rest hsrc ho]
      refine ⟨0, [], 1, [.readCall fd BUFFER_SIZE (-1), .warnCall name], Nat.zero_le _,
        ?_, ?_, ?_, ?_, ?_, ?_⟩
      · simp [Res.state, warnings, Event.warned, setSource_self _ _ _ hsrc]
      · simp
      · intro e he
        simp only [List.mem_cons, List.mem_singleton, List.not_mem_nil, or_false] at he
        rcases he with rfl | rfl
        · simp [CopyEvent, BUFFER_SIZE]
        · simp [CopyEvent]
      · simp only [Res.value, CopyEnd]
        right
        exact ⟨trivial, [], quiet_nil, Or.inl ⟨by simp, by simp⟩⟩
      · intro _ _; simp [Res.value]
      · intro hne _; exact absurd ho (hne _)
    | avail k =>
      by_cases hne : rest = []
      · subst hne
        rw [copy_loop_eof fd name fuel buffer s k hsrc ho]
        refine ⟨0, [], 1, [.readCall fd BUFFER_SIZE 0], Nat.zero_le _, ?_, ?_, ?_, ?_, ?_, ?_⟩
        · simp [Res.state, warnings, Event.warned, setSource_self _ _ _ hsrc]
        · simp
        · intro e he
          simp only [List.mem_singleton] at he
          subst he
          simp [CopyEvent, BUFFER_SIZE]
        · simp only [Res.value]
          exact Or.inl ⟨rfl, rfl, rfl, [], by simp, quiet_nil⟩
        · intro _ _; simp [Res.value]
        · intro _ _; simp [failures, Event.failed]
      · rw [copy_loop_data fd name fuel buffer s rest k hsrc hne ho]
        have hl : 0 < rest.length := List.length_pos.mpr hne
        obtain ⟨m, hm⟩ : ∃ m, m = chunk k rest.length := ⟨_, rfl⟩
        rw [← hm]
        have hm1 : m ≤ rest.length := hm ▸ chunk_le_len _ _
        have hm2 : m ≤ BUFFER_SIZE := hm ▸ chunk_le_size _ _
        have hm3 : 0 < m := hm ▸ chunk_pos _ _ hl
        obtain ⟨buf, hbuf⟩ : ∃ b, b = rest.take m ++ buffer.drop m := ⟨_, rfl⟩
        rw [← hbuf]
        obtain ⟨s1, hs1⟩ : ∃ s1, s1 = bump (setSource s fd (rest.drop m)) [] [] 1
            [.readCall fd BUFFER_SIZE (m : Nat)] := ⟨_, rfl⟩
        rw [← hs1]
        have hsrc1 : source s1 fd = some (rest.drop m) := by
          rw [hs1, source_bump]; exact source_setSource _ _ _ _ hsrc
        have hrun := write_loop_run name buf m fuel 0 s1 (Nat.zero_le _)
        rw [show (((0 : Nat) : Int)) = 0 from rfl] at hrun
        obtain ⟨t, k1, T1, -, h2, h3, h4, h5, -, h7, h8⟩ := hrun
        have hout : (buf.drop 0).take (t - 0) = rest.take t := by
          rw [hbuf]; simpa using take_buffer rest _ t m h2 hm1
        rw [hout] at h3
        have hev1 : ∀ e ∈ Event.readCall fd BUFFER_SIZE (m : Nat) :: T1, CopyEvent fd name e := by
          intro e he
          rcases List.mem_cons.mp he with rfl | he
          · simp only [CopyEvent]
            refine ⟨trivial, trivial, by omega, by exact_mod_cast hm2⟩
          · exact copyEvent_of_write fd name m e hm2 (h4 e he)
        cases hw : write_loop name buf (m : Nat) fuel 0 s1 with
        | timeout s2 =>
          rw [hw] at h3 h5 h7
          simp only [Res.state, Res.value] at h3 h5 h7 ⊢
          refine ⟨m, rest.take t, 1 + k1, .readCall fd BUFFER_SIZE (m : Nat) :: T1, hm1,
            ?_, ?_, hev1, ?_, ?_, ?_⟩
          · rw [h3, hs1, bump_bump]; simp [warnings_read]
          · exact List.take_prefix_take_left _ h2
          · simp only [CopyEnd, WriteEnd] at h5 ⊢
            have := (quiet_append [.readCall fd BUFFER_SIZE (m : Nat)] T1).mpr
              ⟨quiet_read fd _ m hm3, h5.1, h5.2, eofReads_of_write name m T1 h4⟩
            simpa using this
          · intro hp hf
            exact absurd rfl (h7 (writeProgress_congr s s1 (by rw [hs1]; simp) hp) (by omega))
          · intro _ hw2
            rw [failures_read_ok]
            exact h8 (noWriteError_congr s s1 (by rw [hs1]; simp) hw2)
        | done ex s2 =>
          rw [hw] at h3 h5 h7
          cases ex with
          | returned rc =>
            simp only [Res.state, Res.value, WriteEnd] at h3 h5 h7 ⊢
            obtain ⟨hrc, htm, T0, hT0, hq1, hq2⟩ := h5
            refine ⟨m, rest.take t, 1 + k1, .readCall fd BUFFER_SIZE (m : Nat) :: T1, hm1,
              ?_, ?_, hev1, ?_, ?_, ?_⟩
            · rw [h3, hs1, bump_bump]; simp [warnings_read]
            · exact List.take_prefix_take_left _ h2
            · simp only [CopyEnd]
              right
              refine ⟨hrc, .readCall fd BUFFER_SIZE (m : Nat) :: T0, ?_,
                Or.inr ⟨(t : Int), (m : Int) - t, ?_⟩⟩
              · have hT0w : ∀ e ∈ T0, WriteEvent name m e := by
                  intro e he
                  exact h4 e (by rw [hT0]; simp [he])
                have := (quiet_append [.readCall fd BUFFER_SIZE (m : Nat)] T0).mpr
                  ⟨quiet_read fd _ m hm3, hq1, hq2, eofReads_of_write name m T0 hT0w⟩
                simpa using this
              · rw [hT0]; simp
            · intro _ _; simp
            · intro _ hw2
              rw [failures_read_ok]
              exact h8 (noWriteError_congr s s1 (by rw [hs1]; simp) hw2)
          | finished x =>
            simp only [Res.state, Res.value, WriteEnd] at h3 h5 h7
            dsimp only
            obtain ⟨-, htm, hf1, hw1⟩ := h5
            subst htm
            have hsrc2 : source s2 fd = some (rest.drop t) := by
              rw [h3, source_bump]; exact hsrc1
            obtain ⟨n2, out2, k2, T2, g1, g2, g3, g4, g5, g6, g7⟩ := ih buf s2 _ hsrc2
            have hlen : (rest.drop t).length = rest.length - t := by simp
            refine ⟨t + n2, rest.take t ++ out2, 1 + k1 + k2,
              .readCall fd BUFFER_SIZE (t : Nat) :: T1 ++ T2, by omega, ?_, ?_, ?_, ?_, ?_, ?_⟩
            · rw [g2, h3, hs1, setSource_bump, setSource_bump, setSource_setSource, bump_bump,
                bump_bump, List.drop_drop]
              simp [warnings_append, warnings_read, hw1, Nat.add_comm]
              congr 1
              omega
            · rw [List.take_add]
              exact (List.prefix_append_right_inj _).mpr g3
            · intro e he
              rcases List.mem_append.mp he with he | he
              · exact hev1 e he
              · exact g4 e he
            · have hq : Quiet (.readCall fd BUFFER_SIZE (t : Nat) :: T1) := by
                have := (quiet_append [.readCall fd BUFFER_SIZE (t : Nat)] T1).mpr
                  ⟨quiet_read fd _ t hm3, hf1, hw1, eofReads_of_write name t T1 h4⟩
                simpa using this
              revert g5
              cases (copy_loop fd name fuel buf s2).value with
              | none =>
                simp only [CopyEnd]
                intro g5
                exact (quiet_append _ _).mpr ⟨hq, g5⟩
              | some rc =>
                simp only [CopyEnd]
                rintro (⟨a, b, c, T0, d, e⟩ | ⟨a, T0, b, c⟩)
                · left
                  refine ⟨a, by omega, ?_, .readCall fd BUFFER_SIZE (t : Nat) :: T1 ++ T0, ?_,
                    (quiet_append _ _).mpr ⟨hq, e⟩⟩
                  · rw [c]; exact List.take_append_drop _ _
                  · rw [d]; simp
                · right
                  refine ⟨a, .readCall fd BUFFER_SIZE (t : Nat) :: T1 ++ T0,
                    (quiet_append _ _).mpr ⟨hq, b⟩, ?_⟩
                  rcases c with ⟨c1, c2⟩ | ⟨off, cnt, c1⟩
                  · left
                    refine ⟨by rw [c1]; simp, ?_⟩
                    rw [c2, List.take_add]
                  · right
                    exact ⟨off, cnt, by rw [c1]; simp⟩
            · intro hp hf
              have hp2 : WriteProgress s2 := writeProgress_congr s s2 (by rw [h3, hs1]; simp) hp
              exact g6 hp2 (by omega)
            · intro hr hw2
              have hr2 : NoReadError s2 := noReadError_congr s s2 (by rw [h3, hs1]; simp) hr
              have hw3 : NoWriteError s2 := noWriteError_congr s s2 (by rw [h3, hs1]; simp) hw2
              have := g7 hr2 hw3
              rw [failures_append, failures_read_ok]
              omega

theorem Res.eq_done {α : Type} (r : Res α) (a : α) (h : r.value = some a) :
    r = .done a r.state := by
  cases r with
  | timeout s => simp [Res.value] at h
  | done b s => simp only [Res.value, Option.some.injEq] at h; simp [Res.state, h]

theorem drop_trace (A T : List Event) : (A ++ T).drop A.length = T := by
  simp

theorem failures_tail_fail (T0 : List Event) (e : Event) (name : String)
    (hq : Quiet T0) (he : e.failed = true) :
    failures (T0 ++ [e, .warnCall name]) = 1 := by
  rw [failures_append, hq.1]
  have hw : Event.failed (.warnCall name) = false := rfl
  simp [failures, List.countP_cons, he, hw]

theorem warnings_tail_fail (T0 : List Event) (e : Event) (name : String)
    (hq : Quiet T0) (he : e.failed = true) :
    warnings (T0 ++ [e, .warnCall name]) = [name] := by
  rw [warnings_append, hq.2.1]
  cases e <;> simp_all [warnings, Event.warned, Event.failed]

theorem eofReads_tail_fail (T0 : List Event) (e : Event) (name : String)
    (hq : Quiet T0) (he : e.failed = true) :
    eofReads (T0 ++ [e, .warnCall name]) = 0 := by
  rw [eofReads_append, hq.2.2]
  cases e with
  | readCall f c r =>
    have : r < 0 := by simpa [Event.failed] using he
    have h0 : ¬ r = 0 := by omega
    simp [eofReads, Event.isEof, h0]
  | _ => simp [eofReads, Event.isEof]

theorem quiet_tail_eof (T0 : List Event) (fd : Int) (hq : Quiet T0) :
    failures (T0 ++ [.readCall fd BUFFER_SIZE 0]) = 0 ∧
    warnings (T0 ++ [.readCall fd BUFFER_SIZE 0]) = [] ∧
    eofReads (T0 ++ [.readCall fd BUFFER_SIZE 0]) = 1 := by
  rw [failures_append, warnings_append, eofReads_append, hq.1, hq.2.1, hq.2.2]
  simp [failures, warnings, eofReads, Event.failed, Event.warned, Event.isEof]

/-- A summary of every run of `copy_file` on an open source, whatever the
fuel and the schedules. -/
theorem copy_file_summary (fuel : Nat) (fd : Int) (name : String) (s : Sys)
    (rest : List Byte) (hsrc : source s fd = some rest) :
    ∃ (n : Nat) (out : List Byte) (k : Nat) (T : List Event), n ≤ rest.length ∧
      (copy_file fuel fd name s).state
        = bump (setSource s fd (rest.drop n)) out (warnings T) k T ∧
      (∀ e ∈ T, CopyEvent fd name e) ∧
      ((copy_file fuel fd name s).value = none ∧ failures T = 0 ∧ warnings T = [] ∨
       (copy_file fuel fd name s).value = some 0 ∧ failures T = 0 ∧ warnings T = [] ∧
          n = rest.length ∧ out = rest ∨
       (copy_file fuel fd name s).value = some (-1) ∧ failures T = 1 ∧ warnings T = [name]) ∧
      (WriteProgress s → rest.length + 2 ≤ fuel → (copy_file fuel fd name s).value ≠ none) ∧
      (NoReadError s → NoWriteError s → failures T = 0) := by
  obtain ⟨n, out, k, T, h1, h2, -, h4, h5, h6, h7⟩ :=
    copy_loop_run fd name fuel (List.replicate BUFFER_SIZE 0) s rest hsrc
  refine ⟨n, out, k, T, h1, h2, h4, ?_, h6, h7⟩
  unfold copy_file
  revert h5
  cases (copy_loop fd name fuel (List.replicate BUFFER_SIZE 0) s).value with
  | none =>
    intro h5
    exact Or.inl ⟨rfl, h5.1, h5.2.1⟩
  | some rc =>
    rintro (⟨a, b, c, T0, d, e⟩ | ⟨a, T0, q, (⟨c, -⟩ | ⟨off, cnt, c⟩)⟩)
    · have := quiet_tail_eof T0 fd e
      exact Or.inr (Or.inl ⟨by rw [a], by rw [d]; exact this.1, by rw [d]; exact this.2.1, b, c⟩)
    · refine Or.inr (Or.inr ⟨by rw [a], ?_, ?_⟩)
      · rw [c]; exact failures_tail_fail T0 _ name q (by simp [Event.failed])
      · rw [c]; exact warnings_tail_fail T0 _ name q (by simp [Event.failed])
    · refine Or.inr (Or.inr ⟨by rw [a], ?_, ?_⟩)
      · rw [c]; exact failures_tail_fail T0 _ name q (by simp [Event.failed])
      · rw [c]; exact warnings_tail_fail T0 _ name q (by simp [Event.failed])

/-- The error-free run of `copy_file`: with no failing `read` or `write`,
writes that make progress and enough fuel, the call returns 0 having moved
all of the source to standard output. -/
theorem copy_file_ok (fuel : Nat) (fd : Int) (name : String) (s : Sys) (content : List Byte)
    (hsrc : source s fd = some content) (hr : NoReadError s) (hw : NoWriteError s)
    (hp : WriteProgress s) (hfuel : content.length + 2 ≤ fuel) :
    ∃ (k : Nat) (T : List Event),
      copy_file fuel fd name s = .done 0 (bump (setSource s fd []) content [] k T) ∧
      failures T = 0 ∧ warnings T = [] ∧ ∀ e ∈ T, CopyEvent fd name e := by
  obtain ⟨n, out, k, T, -, h2, h3, h4, h5, h6⟩ := copy_file_summary fuel fd name s content hsrc
  have hv := h5 hp hfuel
  have hf := h6 hr hw
  rcases h4 with ⟨a, -⟩ | ⟨a, b, c, d, e⟩ | ⟨-, b, -⟩
  · exact absurd a hv
  · refine ⟨k, T, ?_, b, c, h3⟩
    rw [Res.eq_done _ _ a, h2, c, d, e]
    simp
  · omega

/-! ## One operand -/

theorem main_eq_main_loop (fuel : Nat) (argv : List String) (s : Sys) :
    main fuel argv s = main_loop fuel (operands argv) EXIT_SUCCESS s := by
  unfold main operands
  by_cases h : argv.length = 1
  · simp only [h, if_true, main_loop]
  · simp only [h, if_false]

theorem main_loop_cons (fuel : Nat) (arg : String) (rest : List String) (es : Int) (s : Sys) :
    main_loop fuel (arg :: rest) es s
      = match operand_step fuel arg s with
        | .timeout s1 => .timeout s1
        | .done b s1 => main_loop fuel rest (if b then EXIT_FAILURE else es) s1 := by
  rw [main_loop]
  unfold operand_step
  by_cases h : arg = "-"
  · simp only [h, if_true]
    cases copy_file fuel STDIN_FILENO "stdin" s with
    | timeout s1 => rfl
    | done rc s1 => simp
  · simp only [h, if_false]
    by_cases ho : (sys_open arg s).1 < 0
    · simp [ho]
    · simp only [ho, if_false]
      cases copy_file fuel (sys_open arg s).1 arg (sys_open arg s).2 with
      | timeout s2 => rfl
      | done rc s2 =>
        by_cases hc : (sys_close (sys_open arg s).1 s2).1 < 0
        · simp [hc]
        · simp [hc]

theorem copy_file_uniform (fuel : Nat) (fd : Int) (name : String) (s : Sys)
    (rest : List Byte) (hsrc : source s fd = some rest) :
    ∃ (n : Nat) (out : List Byte) (k : Nat) (T : List Event), n ≤ rest.length ∧
      (copy_file fuel fd name s).state
        = bump (setSource s fd (rest.drop n)) out (warnings T) k T ∧
      (∀ e ∈ T, CopyEvent fd name e) ∧
      warnings T = List.replicate (failures T) name ∧
      failures T ≤ 1 ∧
      (∀ rc, (copy_file fuel fd name s).value = some rc →
        (rc < 0 ↔ 0 < failures T) ∧ (¬ rc < 0 → n = rest.length ∧ out = rest)) ∧
      ((copy_file fuel fd name s).value = none → failures T = 0) ∧
      (WriteProgress s → rest.length + 2 ≤ fuel → (copy_file fuel fd name s).value ≠ none) ∧
      (NoReadError s → NoWriteError s → failures T = 0) := by
  obtain ⟨n, out, k, T, h1, h2, h3, h4, h5, h6⟩ := copy_file_summary fuel fd name s rest hsrc
  refine ⟨n, out, k, T, h1, h2, h3, ?_, ?_, ?_, ?_, h5, h6⟩
  · rcases h4 with ⟨-, b, c⟩ | ⟨-, b, c, -⟩ | ⟨-, b, c⟩ <;> simp [b, c]
  · rcases h4 with ⟨-, b, c⟩ | ⟨-, b, c, -⟩ | ⟨-, b, c⟩ <;> omega
  · intro rc hrc
    rcases h4 with ⟨a, b, c⟩ | ⟨a, b, c, d, e⟩ | ⟨a, b, c⟩
    · rw [a] at hrc; cases hrc
    · rw [a] at hrc
      simp only [Option.some.injEq] at hrc
      subst hrc
      simp [b, d, e]
    · rw [a] at hrc
      simp only [Option.some.injEq] at hrc
      subst hrc
      simp [b]
  · intro hv
    rcases h4 with ⟨a, b, c⟩ | ⟨a, b, c, d, e⟩ | ⟨a, b, c⟩
    · exact b
    · exact b
    · rw [a] at hv; cases hv

theorem sys_open_none (path : String) (s : Sys) (h : s.fs path = none) :
    sys_open path s = (-1, bump s [] [] 0 [.openCall path (-1)]) := by
  simp [sys_open, h, bump, logEvent]

theorem sys_open_some (path : String) (s : Sys) (c : List Byte) (h : s.fs path = some c) :
    sys_open path s
      = (allocFd s.fdtab,
          bump (withFile s (allocFd s.fdtab) c) [] [] 0 [.openCall path (allocFd s.fdtab)]) := by
  simp [sys_open, h, bump, logEvent, withFile]

theorem source_withFile (s : Sys) (fd : Int) (c : List Byte) (h : fd ≠ STDIN_FILENO) :
    source (withFile s fd c) fd = some c := by
  simp [source, withFile, h, lookupFd]

theorem setSource_withFile (s : Sys) (fd : Int) (c r : List Byte) (h : fd ≠ STDIN_FILENO) :
    setSource (withFile s fd c) fd r = withFile s fd r := by
  simp [setSource, withFile, h, updateFd]

theorem sys_close_withFile (s : Sys) (fd : Int) (c : List Byte) (o : List Byte)
    (d : List String) (k : Nat) (T : List Event) :
    sys_close fd (bump (withFile s fd c) o d k T)
      = ((if s.closeO (s.clock + k) then -1 else 0),
          bump s o d (k + 1)
            (T ++ [.closeCall fd (if s.closeO (s.clock + k) then -1 else 0)])) := by
  simp [sys_close, bump, withFile, lookupFd, removeFd, logEvent, tick, Nat.add_assoc]

theorem fdDiscipline_append (cur : Option Int) (A B : List Event) :
    fdDiscipline cur (A ++ B) = (fdDiscipline cur A).bind (fun c => fdDiscipline c B) := by
  induction A generalizing cur with
  | nil => rfl
  | cons e A ih =>
    simp only [List.cons_append, fdDiscipline]
    cases fdStep cur e with
    | none => rfl
    | some c => exact ih c

theorem fdDiscipline_copy (fd : Int) (name : String) (cur : Option Int) (T : List Event)
    (h : ∀ e ∈ T, CopyEvent fd name e) (hc : fd = STDIN_FILENO ∨ cur = some fd) :
    fdDiscipline cur T = some cur := by
  induction T with
  | nil => rfl
  | cons e T ih =>
    have he := h e (List.mem_cons_self _ _)
    have ih' := ih (fun x hx => h x (List.mem_cons_of_mem _ hx))
    cases e with
    | readCall f c r =>
      simp only [CopyEvent] at he
      simp only [fdDiscipline, fdStep, he.1, hc, if_true, ih']
    | writeCall f off cnt ret => simp only [fdDiscipline, fdStep, ih']
    | warnCall nm => simp only [fdDiscipline, fdStep, ih']
    | openCall _ _ => exact he.elim
    | closeCall _ _ => exact he.elim

theorem belongs_of_copy (op : String) (fd : Int) (e : Event)
    (hfd : fd = STDIN_FILENO ↔ op = "-") (h : CopyEvent fd (displayName op) e) :
    Belongs op e := by
  cases e with
  | readCall f c r =>
    simp only [CopyEvent] at h
    simp only [Belongs, h.1, h.2.1, and_true]
    exact hfd
  | writeCall f off cnt ret =>
    simp only [CopyEvent] at h
    exact ⟨h.1, h.2.1, h.2.2.1, h.2.2.2.1⟩
  | warnCall nm => exact h
  | openCall _ _ => exact h.elim
  | closeCall _ _ => exact h.elim

theorem displayName_dash : displayName "-" = "stdin" := rfl

theorem displayName_file (op : String) (h : op ≠ "-") : displayName op = op := by
  simp [displayName, h]

theorem replicate_snoc (n : Nat) (a : String) :
    List.replicate n a ++ [a] = List.replicate (n + 1) a := by
  rw [List.replicate_succ']

theorem operand_step_dash (fuel : Nat) (s : Sys) :
    (operand_step fuel "-" s).state = (copy_file fuel STDIN_FILENO "stdin" s).state ∧
    (operand_step fuel "-" s).value
      = (copy_file fuel STDIN_FILENO "stdin" s).value.map (fun rc => decide (rc < 0)) := by
  unfold operand_step
  simp only [if_true]
  cases copy_file fuel STDIN_FILENO "stdin" s <;> exact ⟨rfl, rfl⟩

theorem operand_step_run_dash (fuel : Nat) (s : Sys) :
    ∃ (out : List Byte) (T : List Event), StepRun fuel "-" s (operand_step fuel "-" s) out T := by
  have hsrc : source s STDIN_FILENO = some s.stdin := by simp [source]
  obtain ⟨n, out, k, T, h1, h2, h3, h4, h5, h6, h7, h8, h9⟩ :=
    copy_file_uniform fuel STDIN_FILENO "stdin" s s.stdin hsrc
  obtain ⟨hst, hval⟩ := operand_step_dash fuel s
  refine ⟨out, T, ?_⟩
  exact {
    fs := by rw [hst, h2]; simp
    readO := by rw [hst, h2]; simp
    writeO := by rw [hst, h2]; simp
    closeO := by rw [hst, h2]; simp
    stdout := by rw [hst, h2]; simp
    stderr := by rw [hst, h2]; simp
    trace := by rw [hst, h2]; simp
    stdin_le := by rw [hst, h2]; simp [setSource_stdin_zero]
    stdin_file := fun h => absurd rfl h
    fdtab := fun _ => by rw [hst, h2]; simp [setSource_fdtab_zero]
    belongs := fun e he => belongs_of_copy "-" STDIN_FILENO e (by simp) (h3 e he)
    diags := by rw [h4, displayName_dash]
    atmost := by omega
    atmost_stdin := fun _ => h5
    status := by
      intro b hb
      rw [hval] at hb
      cases hv : (copy_file fuel STDIN_FILENO "stdin" s).value with
      | none => rw [hv] at hb; cases hb
      | some rc =>
        rw [hv] at hb
        simp only [Option.map_some', Option.some.injEq] at hb
        rw [← hb, decide_eq_true_iff]
        exact (h6 rc hv).1
    clean := by
      intro hb
      rw [hval] at hb
      cases hv : (copy_file fuel STDIN_FILENO "stdin" s).value with
      | none => rw [hv] at hb; cases hb
      | some rc =>
        rw [hv] at hb
        simp only [Option.map_some', Option.some.injEq, decide_eq_false_iff_not] at hb
        obtain ⟨a, b⟩ := (h6 rc hv).2 hb
        refine ⟨by simp [operandContent, b], fun _ => ?_⟩
        rw [hst, h2, a]
        simp [setSource_stdin_zero]
    unopened := fun h => absurd rfl h
    noerr := fun hr hw _ _ => h9 hr hw
    terminates := by
      intro hp hf
      rw [hval]
      have := h8 hp (by simpa [operandContent] using hf)
      cases hv : (copy_file fuel STDIN_FILENO "stdin" s).value with
      | none => exact absurd hv this
      | some rc => simp
    discipline := ⟨none, fdDiscipline_copy STDIN_FILENO "stdin" none T h3 (Or.inl rfl),
      fun _ => rfl⟩ }

theorem operand_step_unopened (fuel : Nat) (arg : String) (s : Sys) (ha : arg ≠ "-")
    (hfs : s.fs arg = none) :
    operand_step fuel arg s
      = .done true (bump s [] [arg] 0 [.openCall arg (-1), .warnCall arg]) := by
  unfold operand_step
  simp [ha, sys_open_none arg s hfs, warn_eq, bump_bump]

theorem operand_step_run_unopened (fuel : Nat) (arg : String) (s : Sys) (ha : arg ≠ "-")
    (hfs : s.fs arg = none) :
    ∃ (out : List Byte) (T : List Event), StepRun fuel arg s (operand_step fuel arg s) out T := by
  refine ⟨[], [.openCall arg (-1), .warnCall arg], ?_⟩
  rw [operand_step_unopened fuel arg s ha hfs]
  have hf : failures [.openCall arg (-1), .warnCall arg] = 1 := by
    simp [failures, Event.failed]
  have hw : warnings [.openCall arg (-1), .warnCall arg] = [arg] := by
    simp [warnings, Event.warned]
  exact {
    fs := rfl
    readO := rfl
    writeO := rfl
    closeO := rfl
    stdout := by simp [Res.state]
    stderr := by simp [Res.state, hw]
    trace := by simp [Res.state]
    stdin_le := by simp [Res.state]
    stdin_file := fun _ => rfl
    fdtab := fun _ => rfl
    belongs := by
      intro e he
      simp only [List.mem_cons, List.mem_singleton, List.not_mem_nil, or_false] at he
      rcases he with rfl | rfl
      · exact ⟨ha, rfl⟩
      · exact (displayName_file arg ha).symm
    diags := by rw [hf, hw, displayName_file arg ha]; rfl
    atmost := by omega
    atmost_stdin := fun h => absurd h ha
    status := by
      intro b hb
      simp only [Res.value, Option.some.injEq] at hb
      rw [← hb, hf]; simp
    clean := by intro hb; simp [Res.value] at hb
    unopened := fun _ _ => ⟨rfl, rfl, hf⟩
    noerr := by
      intro _ _ _ h
      rcases h with h | h
      · exact absurd h ha
      · exact absurd hfs h
    terminates := by intro _ _; simp [Res.value]
    discipline := ⟨none, by simp [fdDiscipline, fdStep], fun _ => rfl⟩ }

theorem operand_step_opened (fuel : Nat) (arg : String) (s : Sys) (c : List Byte)
    (ha : arg ≠ "-") (hfs : s.fs arg = some c) :
    operand_step fuel arg s
      = match copy_file fuel (allocFd s.fdtab) arg
            (bump (withFile s (allocFd s.fdtab) c) [] [] 0
              [.openCall arg (allocFd s.fdtab)]) with
        | .timeout s2 => .timeout s2
        | .done rc s2 =>
          if (sys_close (allocFd s.fdtab) s2).1 < 0 then
            .done true (warn arg (sys_close (allocFd s.fdtab) s2).2)
          else .done (decide (rc < 0)) (sys_close (allocFd s.fdtab) s2).2 := by
  have hfd : ¬ allocFd s.fdtab < 0 := by have := allocFd_ge s.fdtab; omega
  unfold operand_step
  simp only [ha, if_false, sys_open_some arg s c hfs, hfd]

theorem fdDiscipline_file (fd : Int) (arg : String) (T E : List Event)
    (hfd : 3 ≤ fd) (h : ∀ e ∈ T, CopyEvent fd arg e) :
    fdDiscipline none (.openCall arg fd :: T) = some (some fd) ∧
    ∀ r, fdDiscipline none (.openCall arg fd :: T ++ .closeCall fd r :: E)
      = fdDiscipline none E := by
  have h1 : ¬ fd < 0 := by omega
  have h2 : fd ≠ STDIN_FILENO := by unfold STDIN_FILENO; omega
  have h3 := fdDiscipline_copy fd arg (some fd) T h (Or.inr rfl)
  refine ⟨by simp [fdDiscipline, fdStep, h1, h3], fun r => ?_⟩
  rw [List.cons_append, fdDiscipline]
  simp only [fdStep, Option.isSome_none, Bool.false_eq_true, if_false, h1]
  rw [fdDiscipline_append, h3]
  simp [fdDiscipline, fdStep, h2]

theorem operand_step_run_opened (fuel : Nat) (arg : String) (s : Sys) (c : List Byte)
    (ha : arg ≠ "-") (hfs : s.fs arg = some c) :
    ∃ (out : List Byte) (T : List Event), StepRun fuel arg s (operand_step fuel arg s) out T := by
  have hge := allocFd_ge s.fdtab
  obtain ⟨fd, hfd⟩ : ∃ fd, fd = allocFd s.fdtab := ⟨_, rfl⟩
  have hfd0 : fd ≠ STDIN_FILENO := by unfold STDIN_FILENO; omega
  have hfdn : ¬ fd < 0 := by omega
  have hfd3 : 3 ≤ fd := by omega
  rw [operand_step_opened fuel arg s c ha hfs, ← hfd]
  obtain ⟨s1, hs1⟩ : ∃ s1, s1 = bump (withFile s fd c) [] [] 0 [.openCall arg fd] := ⟨_, rfl⟩
  rw [← hs1]
  have hsrc : source s1 fd = some c := by
    rw [hs1, source_bump]; exact source_withFile s fd c hfd0
  obtain ⟨n, out, k, T, h1, h2, h3, h4, h5, h6, h7, h8, h9⟩ :=
    copy_file_uniform fuel fd arg s1 c hsrc
  have hs : bump (setSource s1 fd (c.drop n)) out (warnings T) k T
      = bump (withFile s fd (c.drop n)) out (warnings T) k (.openCall arg fd :: T) := by
    rw [hs1, setSource_bump, setSource_withFile _ _ _ _ hfd0, bump_bump]
    simp
  rw [hs] at h2
  have hfo : ∀ X, failures (.openCall arg fd :: X) = failures X := by
    intro X; simp [failures, Event.failed, hfdn]
  have hwo : ∀ X, warnings (.openCall arg fd :: X) = warnings X := by
    intro X; simp [warnings, Event.warned]
  have hbel : ∀ e ∈ Event.openCall arg fd :: T, Belongs arg e := by
    intro e he
    rcases List.mem_cons.mp he with rfl | he
    · exact ⟨ha, rfl⟩
    · refine belongs_of_copy arg fd e ?_ (by rw [displayName_file arg ha]; exact h3 e he)
      constructor
      · intro h; exact absurd h hfd0
      · intro h; exact absurd h ha
  have hcont : operandContent s arg = c := by simp [operandContent, ha, hfs]
  have hp1 : WriteProgress s → WriteProgress s1 :=
    writeProgress_congr s s1 (by rw [hs1]; rfl)
  have hdisc := fdDiscipline_file fd arg T
  cases hr : copy_file fuel fd arg s1 with
  | timeout s2 =>
    rw [hr] at h2 h6 h7 h8
    simp only [Res.state, Res.value] at h2 h7 h8
    have hf0 := h7 trivial
    refine ⟨out, .openCall arg fd :: T, ?_⟩
    dsimp only
    exact {
      fs := by simp [Res.state, h2, withFile]
      readO := by simp [Res.state, h2, withFile]
      writeO := by simp [Res.state, h2, withFile]
      closeO := by simp [Res.state, h2, withFile]
      stdout := by simp [Res.state, h2, withFile]
      stderr := by simp [Res.state, h2, withFile, hwo]
      trace := by simp [Res.state, h2, withFile]
      stdin_le := by simp [Res.state, h2, withFile]
      stdin_file := fun _ => by simp [Res.state, h2, withFile]
      fdtab := fun h => absurd rfl h
      belongs := hbel
      diags := by rw [hwo, hfo, h4, displayName_file arg ha]
      atmost := by rw [hfo]; omega
      atmost_stdin := fun h => absurd h ha
      status := by intro b hb; cases hb
      clean := by intro hb; cases hb
      unopened := fun _ h => by rw [hfs] at h; cases h
      noerr := by
        intro _ _ _ _
        rw [hfo]; exact hf0
      terminates := by
        intro hp hf
        exact absurd rfl (h8 (hp1 hp) (by rw [← hcont]; exact hf))
      discipline := ⟨some fd, (hdisc [] hfd3 h3).1, fun h => absurd rfl h⟩ }
  | done rc s2 =>
    rw [hr] at h2 h6
    simp only [Res.state, Res.value] at h2 h6
    obtain ⟨h6a, h6b⟩ := h6 rc rfl
    dsimp only
    rw [h2, sys_close_withFile]
    by_cases hcl : s.closeO (s.clock + k) = true
    · simp only [hcl, if_true, show ((-1 : Int) < 0) from by decide, warn_eq, bump_bump]
      refine ⟨out ++ [], .openCall arg fd :: T ++ [.closeCall fd (-1)] ++ [.warnCall arg], ?_⟩
      have hf : failures (.openCall arg fd :: T ++ [.closeCall fd (-1)] ++ [.warnCall arg])
          = failures T + 1 := by
        simp [failures, Event.failed, hfdn]
      have hw : warnings (.openCall arg fd :: T ++ [.closeCall fd (-1)] ++ [.warnCall arg])
          = warnings T ++ [arg] := by
        simp [warnings, Event.warned]
      exact {
        fs := rfl
        readO := rfl
        writeO := rfl
        closeO := rfl
        stdout := by simp [Res.state]
        stderr := by simp [Res.state, warnings, Event.warned]
        trace := by simp [Res.state]
        stdin_le := by simp [Res.state]
        stdin_file := fun _ => rfl
        fdtab := fun _ => rfl
        belongs := by
          intro e he
          simp only [List.mem_append, List.mem_singleton] at he
          rcases he with (he | rfl) | rfl
          · exact hbel e he
          · exact ⟨ha, hfd0⟩
          · exact (displayName_file arg ha).symm
        diags := by rw [hw, hf, h4, displayName_file arg ha, replicate_snoc]
        atmost := by rw [hf]; omega
        atmost_stdin := fun h => absurd h ha
        status := by
          intro b hb
          simp only [Res.value, Option.some.injEq] at hb
          rw [← hb, hf]; simp
        clean := by intro hb; simp [Res.value] at hb
        unopened := fun _ h => by rw [hfs] at h; cases h
        noerr := by
          intro _ _ hc _
          have := hc (s.clock + k)
          rw [hcl] at this
          cases this
        terminates := by intro _ _; simp [Res.value]
        discipline := ⟨none, by
          have := (hdisc [.warnCall arg] hfd3 h3).2 (-1)
          simpa [fdDiscipline, fdStep] using this, fun _ => rfl⟩ }
    · have hcl' : s.closeO (s.clock + k) = false := by simpa using hcl
      simp only [hcl', Bool.false_eq_true, if_false, show ¬ ((0 : Int) < 0) from by decide]
      refine ⟨out, .openCall arg fd :: T ++ [.closeCall fd 0], ?_⟩
      have hf : failures (.openCall arg fd :: T ++ [.closeCall fd 0]) = failures T := by
        simp [failures, Event.failed, hfdn]
      have hw : warnings (.openCall arg fd :: T ++ [.closeCall fd 0]) = warnings T := by
        simp [warnings, Event.warned]
      exact {
        fs := rfl
        readO := rfl
        writeO := rfl
        closeO := rfl
        stdout := by simp [Res.state]
        stderr := by simp [Res.state, warnings, Event.warned]
        trace := by simp [Res.state]
        stdin_le := by simp [Res.state]
        stdin_file := fun _ => rfl
        fdtab := fun _ => rfl
        belongs := by
          intro e he
          simp only [List.mem_append, List.mem_singleton] at he
          rcases he with he | rfl
          · exact hbel e he
          · exact ⟨ha, hfd0⟩
        diags := by rw [hw, hf, h4, displayName_file arg ha]
        atmost := by rw [hf]; omega
        atmost_stdin := fun h => absurd h ha
        status := by
          intro b hb
          simp only [Res.value, Option.some.injEq] at hb
          rw [← hb, hf, decide_eq_true_iff]
          exact h6a
        clean := by
          intro hb
          simp only [Res.value, Option.some.injEq, decide_eq_false_iff_not] at hb
          exact ⟨by rw [hcont]; exact (h6b hb).2, fun h => absurd h ha⟩
        unopened := fun _ h => by rw [hfs] at h; cases h
        noerr := by
          intro hr' hw' _ _
          rw [hf]
          exact h9 (noReadError_congr s s1 (by rw [hs1]; rfl) hr')
            (noWriteError_congr s s1 (by rw [hs1]; rfl) hw')
        terminates := by intro _ _; simp [Res.value]
        discipline := ⟨none, by
          have := (hdisc [] hfd3 h3).2 0
          simpa [fdDiscipline] using this, fun _ => rfl⟩ }

theorem operand_step_run (fuel : Nat) (arg : String) (s : Sys) :
    ∃ (out : List Byte) (T : List Event), StepRun fuel arg s (operand_step fuel arg s) out T := by
  by_cases ha : arg = "-"
  · subst ha; exact operand_step_run_dash fuel s
  · cases hfs : s.fs arg with
    | none => exact operand_step_run_unopened fuel arg s ha hfs
    | some c => exact operand_step_run_opened fuel arg s c ha hfs

/-! ## The operand loop -/

theorem empty_segments (ops : List String) :
    (List.replicate ops.length ([] : List Event)).length = ops.length ∧
    (List.replicate ops.length ([] : List Event)).flatten = [] ∧
    diagsOf ops (List.replicate ops.length ([] : List Event)) = [] ∧
    List.Forall₂ SegmentOf ops (List.replicate ops.length ([] : List Event)) := by
  induction ops with
  | nil => simp [diagsOf]
  | cons op ops ih =>
    obtain ⟨-, h2, h3, h4⟩ := ih
    refine ⟨by simp, ?_, ?_, ?_⟩
    · simp [List.replicate_succ]
    · simp only [diagsOf] at h3
      simp only [diagsOf, List.length_cons, List.replicate_succ, List.zipWith_cons_cons,
        List.flatten_cons]
      rw [h3]
      simp [failures]
    · simp only [List.length_cons, List.replicate_succ]
      exact List.Forall₂.cons ⟨by simp, by simp [failures], by simp [failures]⟩ h4

theorem fuelNeeded_step (s s1 : Sys) (arg : String) (rest : List String)
    (hfs : s1.fs = s.fs) (hin : s1.stdin.length ≤ s.stdin.length) :
    fuelNeeded s1 rest ≤ fuelNeeded s (arg :: rest) := by
  simp only [fuelNeeded, hfs, List.map_cons, List.sum_cons]
  omega

theorem fuelNeeded_content (s : Sys) (arg : String) (rest : List String) :
    (operandContent s arg).length + 2 ≤ fuelNeeded s (arg :: rest) := by
  simp only [fuelNeeded, operandContent, List.map_cons, List.sum_cons]
  split <;> omega

theorem main_loop_run (fuel : Nat) (ops : List String) :
    ∀ (es : Int) (s : Sys),
      ∃ segs : List (List Event),
        segs.length = ops.length ∧
        (main_loop fuel ops es s).state.trace = s.trace ++ segs.flatten ∧
        (main_loop fuel ops es s).state.stderr = s.stderr ++ diagsOf ops segs ∧
        List.Forall₂ SegmentOf ops segs ∧
        (∀ rc, (main_loop fuel ops es s).value = some rc →
          rc = if failures segs.flatten = 0 then es else EXIT_FAILURE) ∧
        (∃ cur, fdDiscipline none segs.flatten = some cur ∧
          ((main_loop fuel ops es s).value ≠ none → cur = none)) ∧
        ((main_loop fuel ops es s).value ≠ none →
          (main_loop fuel ops es s).state.fdtab = s.fdtab) ∧
        (WriteProgress s → fuelNeeded s ops ≤ fuel →
          (main_loop fuel ops es s).value ≠ none) := by
  induction ops with
  | nil =>
    intro es s
    refine ⟨[], rfl, ?_, ?_, List.Forall₂.nil, ?_, ⟨none, rfl, fun _ => rfl⟩, fun _ => rfl, ?_⟩
    · simp [main_loop, Res.state]
    · simp [main_loop, Res.state, diagsOf]
    · intro rc h
      simp only [main_loop, Res.value, Option.some.injEq] at h
      simp [failures, h]
    · intro _ _; simp [main_loop, Res.value]
  | cons arg rest ih =>
    intro es s
    obtain ⟨out, T, H⟩ := operand_step_run fuel arg s
    rw [main_loop_cons]
    cases hstep : operand_step fuel arg s with
    | timeout s1 =>
      rw [hstep] at H
      dsimp only
      obtain ⟨e1, e2, e3, e4⟩ := empty_segments rest
      obtain ⟨cur, hc, -⟩ := H.discipline
      refine ⟨T :: List.replicate rest.length [], by simp, ?_, ?_, ?_, ?_, ?_, ?_, ?_⟩
      · simp only [List.flatten_cons, e2, List.append_nil]
        exact H.trace
      · simp only [diagsOf] at e3
        simp only [diagsOf, List.zipWith_cons_cons, List.flatten_cons, e3, List.append_nil]
        rw [← H.diags]
        exact H.stderr
      · exact List.Forall₂.cons ⟨H.belongs, H.atmost, H.atmost_stdin⟩ e4
      · intro rc h; cases h
      · exact ⟨cur, by simp only [List.flatten_cons, e2, List.append_nil]; exact hc,
          fun h => absurd rfl h⟩
      · intro h; exact absurd rfl h
      · intro hp hf
        exact absurd rfl
          (H.terminates hp (le_trans (fuelNeeded_content s arg rest) hf))
    | done b s1 =>
      rw [hstep] at H
      dsimp only
      obtain ⟨segs, g1, g2, g3, g4, g5, ⟨cur, g6, g6'⟩, g7, g8⟩ :=
        ih (if b = true then EXIT_FAILURE else es) s1
      have hb := H.status b rfl
      obtain ⟨cur0, hc0, hc0'⟩ := H.discipline
      have hcur0 : cur0 = none := hc0' (by simp [Res.value])
      subst hcur0
      have hs1 : (Res.done b s1).state = s1 := rfl
      refine ⟨T :: segs, by simp [g1], ?_, ?_, ?_, ?_, ?_, ?_, ?_⟩
      · rw [g2, ← hs1, H.trace]; simp
      · rw [g3, ← hs1, H.stderr, H.diags]; simp [diagsOf]
      · exact List.Forall₂.cons ⟨H.belongs, H.atmost, H.atmost_stdin⟩ g4
      · intro rc h
        rw [g5 rc h]
        simp only [List.flatten_cons, failures_append]
        by_cases hT : failures T = 0
        · have hbf : ¬ (b = true) := by rw [hb]; omega
          simp [hT, hbf]
        · have hbt : b = true := by rw [hb]; omega
          have hne : ¬ (failures T + failures segs.flatten = 0) := by omega
          simp [hbt, hne]
      · refine ⟨cur, ?_, g6'⟩
        rw [List.flatten_cons, fdDiscipline_append, hc0]
        exact g6
      · intro h
        rw [g7 h, ← hs1]
        exact H.fdtab (by simp [Res.value])
      · intro hp hf
        have hp1 : WriteProgress s1 := writeProgress_congr s s1 (by rw [← hs1]; exact H.writeO) hp
        refine g8 hp1 (le_trans (fuelNeeded_step s s1 arg rest ?_ ?_) hf)
        · rw [← hs1]; exact H.fs
        · rw [← hs1]; exact H.stdin_le

theorem stdinAfter_nil (ops : List String) : stdinAfter [] ops = [] := by
  unfold stdinAfter; split <;> rfl

theorem main_loop_ok (fuel : Nat) (ops : List String) :
    ∀ (es : Int) (s : Sys) (rc : Int) (s' : Sys),
      NoReadError s → NoWriteError s → NoCloseError s →
      main_loop fuel ops es s = .done rc s' →
      rc = (if ops.any (unopened s.fs) = true then EXIT_FAILURE else es) ∧
        s'.stdout = s.stdout ++ expectedOut s.fs s.stdin ops ∧
        s'.stderr = s.stderr ++ ops.filter (unopened s.fs) ∧
        s'.stdin = stdinAfter s.stdin ops := by
  induction ops with
  | nil =>
    intro es s rc s' _ _ _ h
    simp only [main_loop, Res.done.injEq] at h
    obtain ⟨h1, h2⟩ := h
    subst h1 h2
    exact ⟨by simp, by simp [expectedOut], by simp, by simp [stdinAfter]⟩
  | cons arg rest ih =>
    intro es s rc s' hr hw hc hrun
    obtain ⟨out, T, H⟩ := operand_step_run fuel arg s
    rw [main_loop_cons] at hrun
    obtain ⟨b, s1, hstep⟩ : ∃ b s1, operand_step fuel arg s = .done b s1 := by
      cases hstep : operand_step fuel arg s with
      | timeout s1 => rw [hstep] at hrun; cases hrun
      | done b s1 => exact ⟨b, s1, rfl⟩
    rw [hstep] at hrun H
    dsimp only at hrun
    have hval : (Res.done b s1 : Res Bool).value = some b := rfl
    have hs1 : s1 = (Res.done b s1 : Res Bool).state := rfl
    have hfs : s1.fs = s.fs := by rw [hs1]; exact H.fs
    obtain ⟨g1, g2, g3, g4⟩ := ih (if b = true then EXIT_FAILURE else es) s1 rc s'
      (noReadError_congr s s1 (by rw [hs1]; exact H.readO) hr)
      (noWriteError_congr s s1 (by rw [hs1]; exact H.writeO) hw)
      (noCloseError_congr s s1 (by rw [hs1]; exact H.closeO) hc) hrun
    have hso : s1.stdout = s.stdout ++ out := by rw [hs1]; exact H.stdout
    have hse : s1.stderr = s.stderr ++ List.replicate (failures T) (displayName arg) := by
      rw [hs1, ← H.diags]; exact H.stderr
    rw [hfs] at g1 g2 g3
    refine ⟨?_, ?_, ?_, ?_⟩
    all_goals by_cases hu : unopened s.fs arg = true
    · -- exit status, operand not opened
      have ha : arg ≠ "-" := by
        intro h; simp [unopened, h] at hu
      have hn : s.fs arg = none := by
        simpa [unopened, ha] using hu
      obtain ⟨hb, -, -⟩ := H.unopened ha hn
      rw [hval] at hb
      simp only [Option.some.injEq] at hb
      rw [g1, hb]
      simp [hu]
    · obtain hb : b = false := by
        have hopen : arg = "-" ∨ s.fs arg ≠ none := by
          by_cases ha : arg = "-"
          · exact Or.inl ha
          · right; intro hn; exact hu (by simp [unopened, ha, hn])
        have hf := H.noerr hr hw hc hopen
        have := H.status b hval
        cases b with
        | false => rfl
        | true => have := this.mp rfl; omega
      rw [g1, hb]
      simp [hu]
    · have ha : arg ≠ "-" := by
        intro h; simp [unopened, h] at hu
      have hn : s.fs arg = none := by
        simpa [unopened, ha] using hu
      obtain ⟨-, ho, -⟩ := H.unopened ha hn
      have hsi : s1.stdin = s.stdin := by rw [hs1]; exact H.stdin_file ha
      rw [g2, hso, ho, hsi]
      simp [expectedOut, ha, hn]
    · have hopen : arg = "-" ∨ s.fs arg ≠ none := by
        by_cases ha : arg = "-"
        · exact Or.inl ha
        · right; intro hn; exact hu (by simp [unopened, ha, hn])
      have hf := H.noerr hr hw hc hopen
      have hb : b = false := by
        have := H.status b hval
        cases b with
        | false => rfl
        | true => have := this.mp rfl; omega
      subst hb
      obtain ⟨ho, hsi⟩ := H.clean hval
      rw [g2, hso, ho]
      by_cases ha : arg = "-"
      · have : s1.stdin = [] := by rw [hs1]; exact hsi ha
        rw [this]
        simp [expectedOut, operandContent, ha]
      · have : s1.stdin = s.stdin := by rw [hs1]; exact H.stdin_file ha
        rw [this]
        simp [expectedOut, operandContent, ha]
    · have ha : arg ≠ "-" := by
        intro h; simp [unopened, h] at hu
      have hn : s.fs arg = none := by
        simpa [unopened, ha] using hu
      obtain ⟨-, -, hf⟩ := H.unopened ha hn
      rw [g3, hse, hf, displayName_file arg ha]
      simp [List.filter_cons, hu]
    · have hopen : arg = "-" ∨ s.fs arg ≠ none := by
        by_cases ha : arg = "-"
        · exact Or.inl ha
        · right; intro hn; exact hu (by simp [unopened, ha, hn])
      have hf := H.noerr hr hw hc hopen
      rw [g3, hse, hf]
      simp [List.filter_cons, hu]
    · have ha : arg ≠ "-" := by
        intro h; simp [unopened, h] at hu
      have hsi : s1.stdin = s.stdin := by rw [hs1]; exact H.stdin_file ha
      rw [g4, hsi]
      simp [stdinAfter, ha, Ne.symm ha]
    · by_cases ha : arg = "-"
      · have hopen : arg = "-" ∨ s.fs arg ≠ none := Or.inl ha
        have hf := H.noerr hr hw hc hopen
        have hb : b = false := by
          have := H.status b hval
          cases b with
          | false => rfl
          | true => have := this.mp rfl; omega
        subst hb
        obtain ⟨-, hsi⟩ := H.clean hval
        have : s1.stdin = [] := by rw [hs1]; exact hsi ha
        rw [g4, this, stdinAfter_nil]
        simp [stdinAfter, ha]
      · have hsi : s1.stdin = s.stdin := by rw [hs1]; exact H.stdin_file ha
        rw [g4, hsi]
        simp [stdinAfter, ha, Ne.symm ha]

/-! ## Expected output of a run -/

theorem operands_cons (prog : String) (ops : List String) (h : ops ≠ []) :
    operands (prog :: ops) = ops := by
  cases ops with
  | nil => exact absurd rfl h
  | cons a t => simp [operands]

theorem operands_single (prog : String) : operands [prog] = ["-"] := by
  simp [operands]

theorem files_opened (fs : String → Option (List Byte)) :
    ∀ (ops : List String) (contents : List (List Byte)),
      ops.map fs = contents.map some → ∀ op ∈ ops, fs op ≠ none := by
  intro ops
  induction ops with
  | nil => intro _ _ op h; cases h
  | cons a t ih =>
    intro contents h op hop
    cases contents with
    | nil => simp at h
    | cons c cs =>
      simp only [List.map_cons, List.cons.injEq] at h
      rcases List.mem_cons.mp hop with rfl | hop
      · rw [h.1]; simp
      · exact ih cs h.2 op hop

theorem expectedOut_files (fs : String → Option (List Byte)) (stdin : List Byte) :
    ∀ (ops : List String) (contents : List (List Byte)) (tail : List String),
      (∀ op ∈ ops, op ≠ "-") → ops.map fs = contents.map some →
      expectedOut fs stdin (ops ++ tail) = contents.flatten ++ expectedOut fs stdin tail := by
  intro ops
  induction ops with
  | nil =>
    intro contents tail _ h
    cases contents with
    | nil => simp
    | cons c cs => simp at h
  | cons a t ih =>
    intro contents tail hd h
    cases contents with
    | nil => simp at h
    | cons c cs =>
      simp only [List.map_cons, List.cons.injEq] at h
      have ha : a ≠ "-" := hd a (List.mem_cons_self _ _)
      have := ih cs tail (fun op hop => hd op (List.mem_cons_of_mem _ hop)) h.2
      simp [expectedOut, ha, h.1, this]

theorem expectedOut_filter (fs : String → Option (List Byte)) :
    ∀ (ops : List String) (stdin : List Byte),
      expectedOut fs stdin (ops.filter (fun op => !unopened fs op)) = expectedOut fs stdin ops := by
  intro ops
  induction ops with
  | nil => intro _; rfl
  | cons a t ih =>
    intro stdin
    by_cases hu : unopened fs a = true
    · have ha : a ≠ "-" := by intro h; simp [unopened, h] at hu
      have hn : fs a = none := by simpa [unopened, ha] using hu
      simp [List.filter_cons, hu, expectedOut, ha, hn, ih]
    · have hu' : unopened fs a = false := by simpa using hu
      by_cases ha : a = "-"
      · simp [List.filter_cons, hu', expectedOut, ha, ih]
      · simp [List.filter_cons, hu', expectedOut, ha, ih]

theorem expectedOut_filterMap (fs : String → Option (List Byte)) (stdin : List Byte) :
    ∀ (ops : List String), (∀ op ∈ ops, op ≠ "-") →
      expectedOut fs stdin ops = (ops.filterMap fs).flatten := by
  intro ops
  induction ops with
  | nil => intro _; rfl
  | cons a t ih =>
    intro hd
    have ha : a ≠ "-" := hd a (List.mem_cons_self _ _)
    have := ih (fun op hop => hd op (List.mem_cons_of_mem _ hop))
    cases hfs : fs a with
    | none => simp [expectedOut, ha, hfs, this, List.filterMap_cons]
    | some c => simp [expectedOut, ha, hfs, this, List.filterMap_cons]

theorem none_unopened (fs : String → Option (List Byte)) (ops : List String)
    (h : ∀ op ∈ ops, op = "-" ∨ fs op ≠ none) :
    ops.any (unopened fs) = false ∧ ops.filter (unopened fs) = [] := by
  have hu : ∀ op ∈ ops, unopened fs op = false := by
    intro op hop
    rcases h op hop with h | h
    · simp [unopened, h]
    · cases hfs : fs op with
      | none => exact absurd hfs h
      | some c => simp [unopened, hfs]
  constructor
  · rw [List.any_eq_false]
    intro op hop
    simp [hu op hop]
  · rw [List.filter_eq_nil_iff]
    intro op hop
    simp [hu op hop]

theorem diagsOf_length :
    ∀ (ops : List String) (segs : List (List Event)), segs.length = ops.length →
      (diagsOf ops segs).length = failures segs.flatten := by
  intro ops
  induction ops with
  | nil =>
    intro segs h
    cases segs with
    | nil => simp [diagsOf, failures]
    | cons _ _ => simp at h
  | cons a t ih =>
    intro segs h
    cases segs with
    | nil => simp at h
    | cons g gs =>
      have := ih gs (by simpa using h)
      simp only [diagsOf] at this
      simp [diagsOf, failures_append, this]

/-! ## Generality of the model -/

/-- Every legal size of a short read is produced by some schedule entry. -/
theorem chunk_any (m len : Nat) (h1 : 1 ≤ m) (h2 : m ≤ BUFFER_SIZE) (h3 : m ≤ len) :
    chunk m len = m := by
  unfold chunk; omega

/-- When every `write` accepts zero bytes the inner loop never ends: whatever
the fuel, it is still running. -/
theorem write_loop_stalls (name : String) (buffer : List Byte) (n : Nat) :
    ∀ (fuel t : Nat) (s : Sys), (∀ i, s.writeO i = .accept 0) → t < n →
      (write_loop name buffer n fuel t s).value = none := by
  intro fuel
  induction fuel with
  | zero => intro t s _ _; rfl
  | succ fuel ih =>
    intro t s hz ht
    rw [write_loop_accept name buffer n fuel t s 0 ht (hz _)]
    exact ih _ _ (fun i => hz i) (by omega)

/-! ## The buffer -/

/-- A `read` into a buffer of `BUFFER_SIZE` bytes leaves it `BUFFER_SIZE`
bytes long. -/
theorem sys_read_buffer_length (fd : Int) (buffer : List Byte) (s : Sys)
    (h : buffer.length = BUFFER_SIZE) :
    (sys_read fd buffer BUFFER_SIZE s).2.1.length = BUFFER_SIZE := by
  unfold sys_read
  cases source s fd with
  | none => exact h
  | some rest =>
    dsimp only
    cases s.readO s.clock with
    | error => exact h
    | avail k =>
      simp only [List.length_append, List.length_take, List.length_drop, h]
      omega

theorem write_loop_congr (name : String) (b1 b2 : List Byte) (n : Nat)
    (hb : b1.take n = b2.take n) :
    ∀ (fuel t : Nat) (s : Sys), t ≤ n →
      write_loop name b1 n fuel t s = write_loop name b2 n fuel t s := by
  intro fuel
  induction fuel with
  | zero => intro t s _; rfl
  | succ fuel ih =>
    intro t s ht
    by_cases h : t < n
    · cases ho : s.writeO s.clock with
      | error =>
        have hI : (t : Int) < (n : Int) := by exact_mod_cast h
        rw [write_loop_error name b1 n fuel t s hI ho, write_loop_error name b2 n fuel t s hI ho]
      | accept k =>
        rw [write_loop_accept name b1 n fuel t s k h ho,
          write_loop_accept name b2 n fuel t s k h ho]
        have hs : ∀ b : List Byte,
            (b.drop t).take (min k (n - t)) = ((b.take n).drop t).take (min k (n - t)) := by
          intro b
          rw [List.drop_take, List.take_take]
          congr 1
          omega
        rw [hs b1, hs b2, hb]
        exact ih _ _ (by omega)
    · have hI : ¬ ((t : Int) < (n : Int)) := by exact_mod_cast h
      rw [write_loop_exit name b1 n fuel t s hI, write_loop_exit name b2 n fuel t s hI]

/-- The result of `copy_file` does not depend on what the buffer holds when
the function is entered: the local array may start with any bytes. -/
theorem copy_loop_buffer_irrelevant (fd : Int) (name : String) :
    ∀ (fuel : Nat) (b1 b2 : List Byte) (s : Sys),
      copy_loop fd name fuel b1 s = copy_loop fd name fuel b2 s := by
  intro fuel
  induction fuel with
  | zero => intro _ _ _; rfl
  | succ fuel ih =>
    intro b1 b2 s
    cases hsrc : source s fd with
    | none => rw [copy_loop_bad fd name fuel b1 s hsrc, copy_loop_bad fd name fuel b2 s hsrc]
    | some rest =>
      cases ho : s.readO s.clock with
      | error =>
        rw [copy_loop_error fd name fuel b1 s rest hsrc ho,
          copy_loop_error fd name fuel b2 s rest hsrc ho]
      | avail k =>
        by_cases hne : rest = []
        · subst hne
          rw [copy_loop_eof fd name fuel b1 s k hsrc ho, copy_loop_eof fd name fuel b2 s k hsrc ho]
        · rw [copy_loop_data fd name fuel b1 s rest k hsrc hne ho,
            copy_loop_data fd name fuel b2 s rest k hsrc hne ho]
          have hm := chunk_le_len k rest.length
          have hb : (rest.take (chunk k rest.length) ++ b1.drop (chunk k rest.length)).take
                (chunk k rest.length)
              = (rest.take (chunk k rest.length) ++ b2.drop (chunk k rest.length)).take
                (chunk k rest.length) := by
            rw [take_buffer rest _ _ _ (le_refl _) hm, take_buffer rest _ _ _ (le_refl _) hm]
          have hw := write_loop_congr name _ _ (chunk k rest.length) hb fuel 0
            (bump (setSource s fd (rest.drop (chunk k rest.length))) [] [] 1
              [.readCall fd BUFFER_SIZE (chunk k rest.length : Nat)]) (Nat.zero_le _)
          rw [show (((0 : Nat) : Int)) = 0 from rfl] at hw
          rw [hw]
          cases write_loop name
              (rest.take (chunk k rest.length) ++ b2.drop (chunk k rest.length))
              (chunk k rest.length : Nat) fuel 0
              (bump (setSource s fd (rest.drop (chunk k rest.length))) [] [] 1
                [.readCall fd BUFFER_SIZE (chunk k rest.length : Nat)]) with
          | timeout s2 => rfl
          | done ex s2 =>
            cases ex with
            | returned rc => rfl
            | finished x => exact ih _ _ s2

/-! ## Runs that return -/

theorem main_terminates (fuel : Nat) (argv : List String) (s : Sys)
    (hp : WriteProgress s) (hfuel : fuelNeeded s (operands argv) ≤ fuel) :
    ∃ rc s', main fuel argv s = .done rc s' := by
  rw [main_eq_main_loop]
  obtain ⟨segs, -, -, -, -, -, -, -, g8⟩ := main_loop_run fuel (operands argv) EXIT_SUCCESS s
  obtain ⟨rc, hrc⟩ := Option.ne_none_iff_exists'.mp (g8 hp hfuel)
  exact ⟨rc, _, Res.eq_done _ _ hrc⟩

theorem copy_file_returns_ok (fuel : Nat) (fd : Int) (name : String) (s : Sys)
    (content : List Byte) (rc : Int) (s' : Sys)
    (hsrc : source s fd = some content) (hr : NoReadError s) (hw : NoWriteError s)
    (hrun : copy_file fuel fd name s = .done rc s') :
    rc = 0 ∧ ∃ (k : Nat) (T : List Event),
      s' = bump (setSource s fd []) content [] k T ∧ warnings T = [] := by
  obtain ⟨n, out, k, T, -, h2, -, h4, -, h6⟩ := copy_file_summary fuel fd name s content hsrc
  have hf := h6 hr hw
  rw [hrun] at h2 h4
  simp only [Res.state, Res.value] at h2 h4
  rcases h4 with ⟨a, -⟩ | ⟨a, -, c, d, e⟩ | ⟨-, b, -⟩
  · cases a
  · simp only [Option.some.injEq] at a
    refine ⟨a, k, T, ?_, c⟩
    rw [h2, c, d, e]
    simp
  · omega

theorem fdDiscipline_counts :
    ∀ (T : List Event) (cur cur' : Option Int), fdDiscipline cur T = some cur' →
      T.countP Event.isOpened + (if cur.isSome then 1 else 0)
        = T.countP Event.isClose + (if cur'.isSome then 1 else 0) := by
  intro T
  induction T with
  | nil =>
    intro cur cur' h
    simp only [fdDiscipline, Option.some.injEq] at h
    simp [h]
  | cons e T ih =>
    intro cur cur' h
    simp only [fdDiscipline] at h
    cases hs : fdStep cur e with
    | none => rw [hs] at h; cases h
    | some c =>
      rw [hs] at h
      have := ih c cur' h
      cases e with
      | openCall p r =>
        simp only [fdStep] at hs
        by_cases h1 : cur.isSome = true
        · simp [h1] at hs
        · by_cases h2 : r < 0
          · simp only [h1, h2, if_true, Bool.false_eq_true, if_false,
              Option.some.injEq] at hs
            subst hs
            have h3 : ¬ (0 ≤ r) := by omega
            simp_all [List.countP_cons, Event.isOpened, Event.isClose]
          · simp only [h1, h2, Bool.false_eq_true, if_false, Option.some.injEq] at hs
            subst hs
            have h3 : 0 ≤ r := by omega
            simp_all [List.countP_cons, Event.isOpened, Event.isClose]
      | readCall fd c' r =>
        simp only [fdStep] at hs
        split at hs
        · simp only [Option.some.injEq] at hs
          subst hs
          simpa [List.countP_cons, Event.isOpened, Event.isClose] using this
        · cases hs
      | writeCall fd off cnt r =>
        simp only [fdStep, Option.some.injEq] at hs
        subst hs
        simpa [List.countP_cons, Event.isOpened, Event.isClose] using this
      | closeCall fd r =>
        simp only [fdStep] at hs
        split at hs
        · rename_i hcl
          simp only [Option.some.injEq] at hs
          subst hs
          simp only [hcl.2, Option.isSome_some, if_true]
          simp only [Option.isSome_none, Bool.false_eq_true, if_false] at this
          simp [List.countP_cons, Event.isOpened, Event.isClose]
          omega
        · cases hs
      | warnCall n =>
        simp only [fdStep, Option.some.injEq] at hs
        subst hs
        simpa [List.countP_cons, Event.isOpened, Event.isClose] using this

/-! # The claims -/

/-- C1 as stated fails on the empty operand list.  Every operand of the empty
list is a readable file and no call fails, yet `main`, run with `argv[0]`
alone on a standard input holding 7, 8, returns 0 having written 7, 8, which
is not the concatenation of the contents of the operands. -/
theorem main_concatenates_any_list_counterexample :
    (∀ op ∈ ([] : List String), op ≠ "-" ∧ demoSys.fs op ≠ none) ∧
    NoReadError demoSys ∧ NoWriteError demoSys ∧ NoCloseError demoSys ∧
    (main 4 ("bobcat" :: []) demoSys).value = some EXIT_SUCCESS ∧
    (main 4 ("bobcat" :: []) demoSys).state.stdout = [7, 8] ∧
    (main 4 ("bobcat" :: []) demoSys).state.stdout
      ≠ demoSys.stdout ++ (([] : List String).filterMap demoSys.fs).flatten := by
  refine ⟨by simp, by intro i; simp [demoSys], by intro i; simp [demoSys],
    by intro i; simp [demoSys], by decide, by decide, by decide⟩

/-- C1, amended: for every non-empty list of operands that are all existing,
readable files (none is `-`, the file system opens each), when no read, write
or close fails, every run of `main` that returns has exit status 0 and has
appended to standard output exactly the concatenation of the operands'
contents in operand order, with no diagnostic and nothing read from standard
input; and `main` returns when every successful write accepts at least one
byte. -/
theorem main_concatenates_files (fuel : Nat) (prog : String) (ops : List String) (s : Sys)
    (contents : List (List Byte)) (hne : ops ≠ [])
    (hfiles : ∀ op ∈ ops, op ≠ "-") (hcont : ops.map s.fs = contents.map some)
    (hr : NoReadError s) (hw : NoWriteError s) (hc : NoCloseError s) :
    (∀ rc s', main fuel (prog :: ops) s = .done rc s' →
      rc = EXIT_SUCCESS ∧
      s'.stdout = s.stdout ++ contents.flatten ∧
      s'.stderr = s.stderr ∧
      s'.stdin = s.stdin) ∧
    (WriteProgress s → fuelNeeded s ops ≤ fuel →
      ∃ rc s', main fuel (prog :: ops) s = .done rc s') := by
  constructor
  · intro rc s' hrun
    rw [main_eq_main_loop, operands_cons prog ops hne] at hrun
    obtain ⟨h1, h2, h3, h4⟩ := main_loop_ok fuel ops EXIT_SUCCESS s rc s' hr hw hc hrun
    have hopen := files_opened s.fs ops contents hcont
    obtain ⟨u1, u2⟩ := none_unopened s.fs ops (fun op hop => Or.inr (hopen op hop))
    have hout := expectedOut_files s.fs s.stdin ops contents [] hfiles hcont
    simp only [List.append_nil, expectedOut] at hout
    refine ⟨?_, ?_, ?_, ?_⟩
    · rw [h1, u1]; simp
    · rw [h2, hout]
    · rw [h3, u2]; simp
    · rw [h4]
      have : "-" ∉ ops := fun h => hfiles "-" h rfl
      simp [stdinAfter, this]
  · intro hp hfuel
    have := main_terminates fuel (prog :: ops) s hp
      (by rw [operands_cons prog ops hne]; exact hfuel)
    exact this

/-- C1 amended, evaluated on the operand list `a`, `a`. -/
theorem main_concatenates_files_witness :
    ∃ s', main 10 ["bobcat", "a", "a"] demoSys = .done EXIT_SUCCESS s' ∧
      s'.stdout = [1, 2, 3, 1, 2, 3] ∧ s'.stderr = [] ∧ s'.stdin = [7, 8] := by
  have h := main_concatenates_files 10 "bobcat" ["a", "a"] demoSys [[1, 2, 3], [1, 2, 3]]
    (by simp) (by decide) (by rfl) (by intro i; simp [demoSys]) (by intro i; simp [demoSys])
    (by intro i; simp [demoSys])
  obtain ⟨rc, s', hrun⟩ := h.2 (by intro i; simp [demoSys]) (by decide)
  obtain ⟨h1, h2, h3, h4⟩ := h.1 rc s' hrun
  exact ⟨s', by rw [hrun, h1], by rw [h2]; rfl, by rw [h3]; rfl, by rw [h4]; rfl⟩

/-- C2: for every content left in an open source and every pattern of short
reads and partial writes (no `read` or `write` fails, every successful `write`
accepts at least one byte), `copy_file` returns 0, has appended exactly the
source's remaining bytes to standard output, leaves the source at end-of-data
and emits no diagnostic.  The content is of any length, so in particular of
length 4095, 4096 and 4097. -/
theorem copy_file_copies_source (fuel : Nat) (fd : Int) (name : String) (s : Sys)
    (content : List Byte) (hsrc : source s fd = some content)
    (hr : NoReadError s) (hw : NoWriteError s) (hp : WriteProgress s)
    (hfuel : content.length + 2 ≤ fuel) :
    ∃ s', copy_file fuel fd name s = .done 0 s' ∧
      s'.stdout = s.stdout ++ content ∧
      s'.stderr = s.stderr ∧
      warnings (s'.trace.drop s.trace.length) = [] ∧
      source s' fd = some [] := by
  obtain ⟨k, T, h1, -, h3, -⟩ := copy_file_ok fuel fd name s content hsrc hr hw hp hfuel
  refine ⟨_, h1, by simp, by simp, by simp [h3], ?_⟩
  rw [source_bump]
  exact source_setSource _ _ _ _ hsrc

/-- C2 at the boundary: inputs of 4095, 4096 and 4097 bytes, read with reads
that fill the buffer and written with partial writes of at most 1000 bytes,
are copied byte for byte. -/
theorem copy_file_copies_source_witness :
    (∃ s', copy_file 4097 STDIN_FILENO "stdin" (boundarySys 4095) = .done 0 s' ∧
      s'.stdout = List.replicate 4095 5 ∧ s'.stderr = []) ∧
    (∃ s', copy_file 4098 STDIN_FILENO "stdin" (boundarySys 4096) = .done 0 s' ∧
      s'.stdout = List.replicate 4096 5 ∧ s'.stderr = []) ∧
    (∃ s', copy_file 4099 STDIN_FILENO "stdin" (boundarySys 4097) = .done 0 s' ∧
      s'.stdout = List.replicate 4097 5 ∧ s'.stderr = []) := by
  refine ⟨?_, ?_, ?_⟩
  · obtain ⟨s', h1, h2, h3, -⟩ := copy_file_copies_source 4097 STDIN_FILENO "stdin"
      (boundarySys 4095) (List.replicate 4095 5) (by rfl)
      (fun _ h => ReadOutcome.noConfusion h) (fun _ h => WriteOutcome.noConfusion h)
      (fun _ h => absurd (WriteOutcome.accept.inj h) (by decide))
      (by rw [List.length_replicate])
    exact ⟨s', h1, by rw [h2]; rfl, by rw [h3]; rfl⟩
  · obtain ⟨s', h1, h2, h3, -⟩ := copy_file_copies_source 4098 STDIN_FILENO "stdin"
      (boundarySys 4096) (List.replicate 4096 5) (by rfl)
      (fun _ h => ReadOutcome.noConfusion h) (fun _ h => WriteOutcome.noConfusion h)
      (fun _ h => absurd (WriteOutcome.accept.inj h) (by decide))
      (by rw [List.length_replicate])
    exact ⟨s', h1, by rw [h2]; rfl, by rw [h3]; rfl⟩
  · obtain ⟨s', h1, h2, h3, -⟩ := copy_file_copies_source 4099 STDIN_FILENO "stdin"
      (boundarySys 4097) (List.replicate 4097 5) (by rfl)
      (fun _ h => ReadOutcome.noConfusion h) (fun _ h => WriteOutcome.noConfusion h)
      (fun _ h => absurd (WriteOutcome.accept.inj h) (by decide))
      (by rw [List.length_replicate])
    exact ⟨s', h1, by rw [h2]; rfl, by rw [h3]; rfl⟩

/-- C3: in every run of `main` that returns, whatever the operands and the
outcomes of the calls, the exit status is 0 exactly when no `open`, `read`,
`write` or `close` of the run failed, and it is 1 otherwise; and `main` does
return when every successful write accepts at least one byte. -/
theorem exit_status_iff_no_failure (fuel : Nat) (argv : List String) (s : Sys) :
    (∀ rc, (main fuel argv s).value = some rc →
      (rc = EXIT_SUCCESS ↔ failures ((main fuel argv s).state.trace.drop s.trace.length) = 0) ∧
      (rc ≠ EXIT_SUCCESS → rc = EXIT_FAILURE)) ∧
    (WriteProgress s → fuelNeeded s (operands argv) ≤ fuel →
      (main fuel argv s).value ≠ none) := by
  rw [main_eq_main_loop]
  obtain ⟨segs, -, g2, -, -, g5, -, -, g8⟩ := main_loop_run fuel (operands argv) EXIT_SUCCESS s
  refine ⟨?_, g8⟩
  intro rc hrc
  rw [g2, drop_trace, g5 rc hrc]
  by_cases hf : failures segs.flatten = 0
  · simp [hf]
  · simp [hf, EXIT_SUCCESS, EXIT_FAILURE]

/-- C3, evaluated: with operands `a`, `-`, `zz` the last one fails to open. -/
theorem exit_status_iff_no_failure_witness :
    (main 10 ["bobcat", "a", "-", "zz"] demoSys).value = some EXIT_FAILURE ∧
    failures ((main 10 ["bobcat", "a", "-", "zz"] demoSys).state.trace.drop
      demoSys.trace.length) ≠ 0 := by
  have h := (exit_status_iff_no_failure 10 ["bobcat", "a", "-", "zz"] demoSys).1
    EXIT_FAILURE (by decide)
  exact ⟨by decide, fun h0 => by
    have := h.1.mpr h0
    simp [EXIT_SUCCESS, EXIT_FAILURE] at this⟩

/-- C4 as stated fails on the empty operand list.  No call fails, no operand
failed to open and no operand opened, yet `main`, run with `argv[0]` alone on
a standard input holding the byte 9, writes that byte: the output is not the
concatenation of the contents of the operands that opened. -/
theorem main_skips_unopened_any_list_counterexample :
    NoReadError stdinOnlySys ∧ NoWriteError stdinOnlySys ∧ NoCloseError stdinOnlySys ∧
    ([] : List String).filter (unopened stdinOnlySys.fs) = [] ∧
    (main 3 ("bobcat" :: []) stdinOnlySys).value = some EXIT_SUCCESS ∧
    (main 3 ("bobcat" :: []) stdinOnlySys).state.stderr = [] ∧
    (main 3 ("bobcat" :: []) stdinOnlySys).state.stdout = [9] ∧
    (main 3 ("bobcat" :: []) stdinOnlySys).state.stdout
      ≠ stdinOnlySys.stdout ++ (([] : List String).filterMap stdinOnlySys.fs).flatten := by
  refine ⟨by intro i; simp [stdinOnlySys], by intro i; simp [stdinOnlySys],
    by intro i; simp [stdinOnlySys], rfl, by decide, by decide, by decide, by decide⟩

/-- C4, amended: for every non-empty operand list, when no read, write or
close fails, every run of `main` that returns has written the concatenation in
operand order of the contents of exactly the operands that did not fail to
open (for `-`, the bytes of standard input still unread), which for a list of
paths is the concatenation of the contents of the files that opened; it has
emitted one diagnostic per operand that failed to open, naming it, in operand
order; and its exit status is 1 if at least one operand failed to open and 0
otherwise.  `main` returns when every successful write accepts at least one
byte. -/
theorem main_skips_unopened (fuel : Nat) (prog : String) (ops : List String) (s : Sys)
    (hne : ops ≠ [])
    (hr : NoReadError s) (hw : NoWriteError s) (hc : NoCloseError s) :
    (∀ rc s', main fuel (prog :: ops) s = .done rc s' →
      rc = (if ops.any (unopened s.fs) = true then EXIT_FAILURE else EXIT_SUCCESS) ∧
      s'.stdout = s.stdout
        ++ expectedOut s.fs s.stdin (ops.filter (fun op => !unopened s.fs op)) ∧
      ((∀ op ∈ ops, op ≠ "-") → s'.stdout = s.stdout ++ (ops.filterMap s.fs).flatten) ∧
      s'.stderr = s.stderr ++ ops.filter (unopened s.fs)) ∧
    (WriteProgress s → fuelNeeded s ops ≤ fuel →
      ∃ rc s', main fuel (prog :: ops) s = .done rc s') := by
  constructor
  · intro rc s' hrun
    rw [main_eq_main_loop, operands_cons prog ops hne] at hrun
    obtain ⟨h1, h2, h3, -⟩ := main_loop_ok fuel ops EXIT_SUCCESS s rc s' hr hw hc hrun
    refine ⟨h1, ?_, ?_, h3⟩
    · rw [h2, expectedOut_filter]
    · intro hd
      rw [h2, expectedOut_filterMap s.fs s.stdin ops hd]
  · intro hp hfuel
    have := main_terminates fuel (prog :: ops) s hp
      (by rw [operands_cons prog ops hne]; exact hfuel)
    exact this

/-- C4 amended, evaluated on one existing file followed by one path that does
not exist: the output is the file's content and the exit status is 1. -/
theorem main_skips_unopened_witness :
    ∃ s', main 7 ["bobcat", "a", "zz"] demoSys = .done EXIT_FAILURE s' ∧
      s'.stdout = [1, 2, 3] ∧ s'.stderr = ["zz"] := by
  have h := main_skips_unopened 7 "bobcat" ["a", "zz"] demoSys (by simp)
    (by intro i; simp [demoSys]) (by intro i; simp [demoSys]) (by intro i; simp [demoSys])
  obtain ⟨rc, s', hrun⟩ := h.2 (by intro i; simp [demoSys]) (by decide)
  obtain ⟨h1, -, h3, h4⟩ := h.1 rc s' hrun
  refine ⟨s', ?_, ?_, ?_⟩
  · rw [hrun, h1]; rfl
  · rw [h3 (by decide)]; rfl
  · rw [h4]; rfl

/-- C5 as stated fails when a `write` fails: standard input (7, 8) is read
without error, yet `main`, run with `argv[0]` alone, returns 1 and has written
nothing, because every `write` fails. -/
theorem main_no_operand_write_failure_counterexample :
    NoReadError writeFailSys ∧
    (main 4 ("bobcat" :: []) writeFailSys).value = some EXIT_FAILURE ∧
    (main 4 ("bobcat" :: []) writeFailSys).state.stdout = [] ∧
    (main 4 ("bobcat" :: []) writeFailSys).state.stderr = ["stdin"] ∧
    (main 4 ("bobcat" :: []) writeFailSys).state.stdout
      ≠ writeFailSys.stdout ++ writeFailSys.stdin := by
  refine ⟨by intro i; simp [writeFailSys], by decide, by decide, by decide, by decide⟩

/-- C5, amended: a run with no operand is the run with the single operand `-`:
from every state (every standard input, every schedule of read and write
outcomes) and for every fuel the two runs are equal, in the bytes written,
the diagnostics, the log of calls and the exit status; and when no read and
no write fails, every such run that returns has exit status 0 and has appended
exactly the content of standard input to standard output, with no diagnostic;
it returns when every successful write accepts at least one byte. -/
theorem main_no_operand_is_dash (fuel : Nat) (prog : String) (s : Sys) :
    main fuel [prog] s = main fuel [prog, "-"] s ∧
    (NoReadError s → NoWriteError s →
      (∀ rc s', main fuel [prog] s = .done rc s' →
        rc = EXIT_SUCCESS ∧ s'.stdout = s.stdout ++ s.stdin ∧ s'.stderr = s.stderr) ∧
      (WriteProgress s → s.stdin.length + 2 ≤ fuel →
        ∃ rc s', main fuel [prog] s = .done rc s')) := by
  constructor
  · rw [main_eq_main_loop, main_eq_main_loop]
    simp [operands]
  · intro hr hw
    constructor
    · intro rc s' hrun
      simp only [main, List.length_singleton, if_true] at hrun
      cases hc : copy_file fuel STDIN_FILENO "stdin" s with
      | timeout s1 => rw [hc] at hrun; cases hrun
      | done rc1 s1 =>
        rw [hc] at hrun
        simp only [Res.done.injEq] at hrun
        obtain ⟨h0, k, T, hs, -⟩ := copy_file_returns_ok fuel STDIN_FILENO "stdin" s s.stdin
          rc1 s1 (by simp [source]) hr hw hc
        rw [← hrun.2, ← hrun.1, hs, h0]
        simp
    · intro hp hfuel
      exact main_terminates fuel [prog] s hp (by simp [operands, fuelNeeded]; omega)

/-- C5 amended, evaluated on standard input 7, 8. -/
theorem main_no_operand_is_dash_witness :
    main 4 ["bobcat"] demoSys = main 4 ["bobcat", "-"] demoSys ∧
    ∃ s', main 4 ["bobcat"] demoSys = .done EXIT_SUCCESS s' ∧
      s'.stdout = [7, 8] ∧ s'.stderr = [] := by
  have h := main_no_operand_is_dash 4 "bobcat" demoSys
  have h2 := h.2 (by intro i; simp [demoSys]) (by intro i; simp [demoSys])
  obtain ⟨rc, s', hrun⟩ := h2.2 (by intro i; simp [demoSys]) (by decide)
  obtain ⟨h3, h4, h5⟩ := h2.1 rc s' hrun
  exact ⟨h.1, s', by rw [hrun, h3], by rw [h4]; rfl, by rw [h5]; rfl⟩

/-- C6: for every operand list with `-` at one position and readable files
(any strings other than `-`) elsewhere, when no read, write or close fails,
every run of `main` that returns has exit status 0 and has written the
contents of the operands before `-`, then the unread bytes of standard input,
then the contents of the operands after `-`, leaving standard input at
end-of-data; in the log of each operand a `read` is from standard input
exactly when that operand is the string `-`; and `main` returns when every
successful write accepts at least one byte. -/
theorem main_dash_position (fuel : Nat) (prog : String) (pre post : List String) (s : Sys)
    (cpre cpost : List (List Byte))
    (hpre : ∀ op ∈ pre, op ≠ "-") (hpost : ∀ op ∈ post, op ≠ "-")
    (hcpre : pre.map s.fs = cpre.map some) (hcpost : post.map s.fs = cpost.map some)
    (hr : NoReadError s) (hw : NoWriteError s) (hc : NoCloseError s) :
    (∀ rc s', main fuel (prog :: (pre ++ "-" :: post)) s = .done rc s' →
      rc = EXIT_SUCCESS ∧
      s'.stdout = s.stdout ++ (cpre.flatten ++ s.stdin ++ cpost.flatten) ∧
      s'.stdin = [] ∧
      s'.stderr = s.stderr ∧
      ∃ segs : List (List Event), s'.trace = s.trace ++ segs.flatten ∧
        List.Forall₂ (fun op seg => ∀ fd c r, Event.readCall fd c r ∈ seg →
          (fd = STDIN_FILENO ↔ op = "-")) (pre ++ "-" :: post) segs) ∧
    (WriteProgress s → fuelNeeded s (pre ++ "-" :: post) ≤ fuel →
      ∃ rc s', main fuel (prog :: (pre ++ "-" :: post)) s = .done rc s') := by
  have hne : pre ++ "-" :: post ≠ [] := by simp
  constructor
  · intro rc s' hrun
    rw [main_eq_main_loop, operands_cons prog _ hne] at hrun
    obtain ⟨h1, h2, h3, h4⟩ :=
      main_loop_ok fuel (pre ++ "-" :: post) EXIT_SUCCESS s rc s' hr hw hc hrun
    obtain ⟨segs, -, g2, -, g4, -⟩ := main_loop_run fuel (pre ++ "-" :: post) EXIT_SUCCESS s
    have hopen : ∀ op ∈ pre ++ "-" :: post, op = "-" ∨ s.fs op ≠ none := by
      intro op hop
      rcases List.mem_append.mp hop with hop | hop
      · exact Or.inr (files_opened s.fs pre cpre hcpre op hop)
      · rcases List.mem_cons.mp hop with rfl | hop
        · exact Or.inl rfl
        · exact Or.inr (files_opened s.fs post cpost hcpost op hop)
    obtain ⟨u1, u2⟩ := none_unopened s.fs _ hopen
    have hout : expectedOut s.fs s.stdin (pre ++ "-" :: post)
        = cpre.flatten ++ s.stdin ++ cpost.flatten := by
      rw [expectedOut_files s.fs s.stdin pre cpre _ hpre hcpre]
      have := expectedOut_files s.fs [] post cpost [] hpost hcpost
      simp only [List.append_nil, expectedOut] at this
      simp [expectedOut, this]
    refine ⟨?_, ?_, ?_, ?_, segs, ?_, ?_⟩
    · rw [h1, u1]; simp
    · rw [h2, hout]
    · rw [h4]; simp [stdinAfter]
    · rw [h3, u2]; simp
    · rw [hrun] at g2; exact g2
    · refine g4.imp ?_
      intro op seg hseg fd c r hmem
      exact (hseg.1 _ hmem).1
  · intro hp hfuel
    have := main_terminates fuel (prog :: (pre ++ "-" :: post)) s hp
      (by rw [operands_cons prog _ hne]; exact hfuel)
    exact this

/-- C6, evaluated on the operands `a`, `-`, `a`. -/
theorem main_dash_position_witness :
    ∃ s', main 10 ["bobcat", "a", "-", "a"] demoSys = .done EXIT_SUCCESS s' ∧
      s'.stdout = [1, 2, 3, 7, 8, 1, 2, 3] ∧ s'.stdin = [] := by
  have h := main_dash_position 10 "bobcat" ["a"] ["a"] demoSys
    [[1, 2, 3]] [[1, 2, 3]] (by decide) (by decide) (by rfl) (by rfl)
    (by intro i; simp [demoSys]) (by intro i; simp [demoSys]) (by intro i; simp [demoSys])
  obtain ⟨rc, s', hrun⟩ := h.2 (by intro i; simp [demoSys]) (by decide)
  obtain ⟨h1, h2, h3, -⟩ := h.1 rc s' hrun
  exact ⟨s', by rw [← h1]; exact hrun, by rw [h2]; rfl, h3⟩

/-- C7: in every run of `copy_file` on an open source, with `T` the calls it
logged (reads of the source, writes to standard output, diagnostics), `n` the
number of bytes it read and `out` the bytes it wrote: the output is a prefix
of the bytes read; as soon as a `read` or a `write` has
failed the call has returned -1, the failed call is followed by exactly one
diagnostic, for the display name, and by no other call, nothing failed or was
diagnosed before it, and after a failed `read` the output is all the bytes
read; as soon as a `read` has returned 0 the call has returned 0 with no
diagnostic and the whole source copied; and the call returns in no other way. -/
theorem copy_file_failure_stops (fuel : Nat) (fd : Int) (name : String) (s : Sys)
    (rest : List Byte) (hsrc : source s fd = some rest) :
    ∃ (n : Nat) (out : List Byte) (T : List Event),
      (copy_file fuel fd name s).state.trace = s.trace ++ T ∧
      (copy_file fuel fd name s).state.stdout = s.stdout ++ out ∧
      (∀ e ∈ T, CopyEvent fd name e) ∧
      n ≤ rest.length ∧
      source (copy_file fuel fd name s).state fd = some (rest.drop n) ∧
      out <+: rest.take n ∧
      (0 < failures T →
        (copy_file fuel fd name s).value = some (-1) ∧
        (copy_file fuel fd name s).state.stderr = s.stderr ++ [name] ∧
        ∃ T0 e, T = T0 ++ [e, .warnCall name] ∧ Quiet T0 ∧ e.failed = true ∧
          (e.isWrite = true ∨ out = rest.take n)) ∧
      (0 < eofReads T →
        (copy_file fuel fd name s).value = some 0 ∧
        (copy_file fuel fd name s).state.stderr = s.stderr ∧
        warnings T = [] ∧ failures T = 0 ∧ out = rest) ∧
      (∀ rc, (copy_file fuel fd name s).value = some rc →
        rc = -1 ∧ 0 < failures T ∨ rc = 0 ∧ 0 < eofReads T) := by
  obtain ⟨n, out, k, T, h1, h2, h3, h4, h5, -, -⟩ :=
    copy_loop_run fd name fuel (List.replicate BUFFER_SIZE 0) s rest hsrc
  refine ⟨n, out, T, ?_, ?_, h4, h1, ?_, h3, ?_⟩
  · unfold copy_file; rw [h2]; simp
  · unfold copy_file; rw [h2]; simp
  · unfold copy_file; rw [h2, source_bump]; exact source_setSource _ _ _ _ hsrc
  unfold copy_file
  rw [h2]
  revert h5
  cases (copy_loop fd name fuel (List.replicate BUFFER_SIZE 0) s).value with
  | none =>
    intro h5
    have h5' : Quiet T := h5
    refine ⟨?_, ?_, ?_⟩
    · intro h; have := h5'.1; omega
    · intro h; have := h5'.2.2; omega
    · intro rc h; cases h
  | some rc =>
    rintro (⟨a, b, c, T0, d, e⟩ | ⟨a, T0, q, (⟨c, c2⟩ | ⟨off, cnt, c⟩)⟩)
    · have hq := quiet_tail_eof T0 fd e
      rw [← d] at hq
      refine ⟨?_, ?_, ?_⟩
      · intro h; have := hq.1; omega
      · intro _
        exact ⟨by rw [a], by simp [hq.2.1], hq.2.1, hq.1, c⟩
      · intro rc' h
        simp only [Option.some.injEq] at h
        right
        exact ⟨by rw [← h, a], by omega⟩
    · have hf := failures_tail_fail T0 (.readCall fd BUFFER_SIZE (-1)) name q
        (by simp [Event.failed])
      have hw := warnings_tail_fail T0 (.readCall fd BUFFER_SIZE (-1)) name q
        (by simp [Event.failed])
      have he := eofReads_tail_fail T0 (.readCall fd BUFFER_SIZE (-1)) name q
        (by simp [Event.failed])
      rw [← c] at hf hw he
      refine ⟨?_, ?_, ?_⟩
      · intro _
        refine ⟨by rw [a], by simp [hw], T0, _, c, q, by simp [Event.failed], Or.inr c2⟩
      · intro h; omega
      · intro rc' h
        simp only [Option.some.injEq] at h
        left
        exact ⟨by rw [← h, a], by omega⟩
    · have hf := failures_tail_fail T0 (.writeCall STDOUT_FILENO off cnt (-1)) name q
        (by simp [Event.failed])
      have hw := warnings_tail_fail T0 (.writeCall STDOUT_FILENO off cnt (-1)) name q
        (by simp [Event.failed])
      have he := eofReads_tail_fail T0 (.writeCall STDOUT_FILENO off cnt (-1)) name q
        (by simp [Event.failed])
      rw [← c] at hf hw he
      refine ⟨?_, ?_, ?_⟩
      · intro _
        refine ⟨by rw [a], by simp [hw], T0, _, c, q, by simp [Event.failed],
          Or.inl (by simp [Event.isWrite])⟩
      · intro h; omega
      · intro rc' h
        simp only [Option.some.injEq] at h
        left
        exact ⟨by rw [← h, a], by omega⟩

/-- C7, evaluated: the first `read` of standard input returns two bytes, the
second fails. -/
theorem copy_file_failure_stops_witness :
    source readFailSys STDIN_FILENO = some [7, 8, 9] ∧
    ∃ (n : Nat) (out : List Byte) (T : List Event),
      (copy_file 5 STDIN_FILENO "stdin" readFailSys).state.trace = readFailSys.trace ++ T ∧
      (copy_file 5 STDIN_FILENO "stdin" readFailSys).state.stdout = readFailSys.stdout ++ out ∧
      (∀ e ∈ T, CopyEvent STDIN_FILENO "stdin" e) ∧
      n ≤ [7, 8, (9 : Byte)].length ∧
      source (copy_file 5 STDIN_FILENO "stdin" readFailSys).state STDIN_FILENO
        = some ([7, 8, (9 : Byte)].drop n) ∧
      out <+: [7, 8, (9 : Byte)].take n ∧
      (0 < failures T →
        (copy_file 5 STDIN_FILENO "stdin" readFailSys).value = some (-1) ∧
        (copy_file 5 STDIN_FILENO "stdin" readFailSys).state.stderr
          = readFailSys.stderr ++ ["stdin"] ∧
        ∃ T0 e, T = T0 ++ [e, .warnCall "stdin"] ∧ Quiet T0 ∧ e.failed = true ∧
          (e.isWrite = true ∨ out = [7, 8, (9 : Byte)].take n)) ∧
      (0 < eofReads T →
        (copy_file 5 STDIN_FILENO "stdin" readFailSys).value = some 0 ∧
        (copy_file 5 STDIN_FILENO "stdin" readFailSys).state.stderr = readFailSys.stderr ∧
        warnings T = [] ∧ failures T = 0 ∧ out = [7, 8, 9]) ∧
      (∀ rc, (copy_file 5 STDIN_FILENO "stdin" readFailSys).value = some rc →
        rc = -1 ∧ 0 < failures T ∨ rc = 0 ∧ 0 < eofReads T) :=
  ⟨by rfl, copy_file_failure_stops 5 STDIN_FILENO "stdin" readFailSys [7, 8, 9] (by rfl)⟩

/-- C8: in every run of `main`, whatever the fuel, the log splits into one
segment per operand, in operand order (the single operand `-` when the operand
list is empty); the calls of a segment belong to its operand, at most two of
them failed (at most one for standard input); the diagnostics emitted are, for
each operand in turn, its display name (`stdin` for `-`, else the path) once
per failed call of its segment; so the number of diagnostics is the number of
failed calls. -/
theorem diagnostics_match_errors (fuel : Nat) (argv : List String) (s : Sys) :
    ∃ segs : List (List Event),
      segs.length = (operands argv).length ∧
      (main fuel argv s).state.trace = s.trace ++ segs.flatten ∧
      List.Forall₂ SegmentOf (operands argv) segs ∧
      (main fuel argv s).state.stderr = s.stderr ++ diagsOf (operands argv) segs ∧
      (main fuel argv s).state.stderr.length = s.stderr.length + failures segs.flatten := by
  rw [main_eq_main_loop]
  obtain ⟨segs, g1, g2, g3, g4, -⟩ := main_loop_run fuel (operands argv) EXIT_SUCCESS s
  refine ⟨segs, g1, g2, g4, g3, ?_⟩
  rw [g3, List.length_append, diagsOf_length _ _ g1]

/-- C8, evaluated: when the copy of file `a` fails and its close fails too,
the operand gets two diagnostics. -/
theorem diagnostics_match_errors_witness :
    (main 5 ["bobcat", "a"] copyCloseFailSys).state.stderr = ["a", "a"] ∧
    ∃ segs : List (List Event),
      segs.length = (operands ["bobcat", "a"]).length ∧
      (main 5 ["bobcat", "a"] copyCloseFailSys).state.trace
        = copyCloseFailSys.trace ++ segs.flatten ∧
      List.Forall₂ SegmentOf (operands ["bobcat", "a"]) segs ∧
      (main 5 ["bobcat", "a"] copyCloseFailSys).state.stderr
        = copyCloseFailSys.stderr ++ diagsOf (operands ["bobcat", "a"]) segs ∧
      (main 5 ["bobcat", "a"] copyCloseFailSys).state.stderr.length
        = copyCloseFailSys.stderr.length + failures segs.flatten :=
  ⟨by decide, diagnostics_match_errors 5 ["bobcat", "a"] copyCloseFailSys⟩

/-- C9: in every run of `main`, whatever the fuel, the operands and the
outcomes of the calls, the log obeys the descriptor discipline: an `open` is
made only while no file is held, a `read` is made only from standard input or
from the file held, a `close` is made only of the file held and never of
standard input; so at most one file is held at any point, a file that failed
to open is never read or closed, and a file is never read after its close.
When the run returns, no file is held, the calls to `close` are as many as the
successful calls to `open`, and the descriptor table is as it was.  The run
returns when every successful write accepts at least one byte. -/
theorem descriptor_discipline (fuel : Nat) (argv : List String) (s : Sys) :
    (∃ cur : Option Int,
      fdDiscipline none ((main fuel argv s).state.trace.drop s.trace.length) = some cur ∧
      ((main fuel argv s).value ≠ none →
        cur = none ∧
        ((main fuel argv s).state.trace.drop s.trace.length).countP Event.isClose
          = ((main fuel argv s).state.trace.drop s.trace.length).countP Event.isOpened ∧
        (main fuel argv s).state.fdtab = s.fdtab)) ∧
    (WriteProgress s → fuelNeeded s (operands argv) ≤ fuel →
      (main fuel argv s).value ≠ none) := by
  rw [main_eq_main_loop]
  obtain ⟨segs, -, g2, -, -, -, ⟨cur, g6, g6'⟩, g7, g8⟩ :=
    main_loop_run fuel (operands argv) EXIT_SUCCESS s
  rw [g2, drop_trace]
  refine ⟨⟨cur, g6, fun hv => ?_⟩, g8⟩
  have hcur := g6' hv
  subst hcur
  have := fdDiscipline_counts _ _ _ g6
  simp only [Option.isSome_none, Bool.false_eq_true, if_false, Nat.add_zero] at this
  exact ⟨rfl, this.symm, g7 hv⟩

/-- C9, evaluated on a run that opens `a`, fails on its first read and fails
to close it: the log is accepted and ends with no file held. -/
theorem descriptor_discipline_witness :
    (main 5 ["bobcat", "a"] copyCloseFailSys).value = some EXIT_FAILURE ∧
    fdDiscipline none ((main 5 ["bobcat", "a"] copyCloseFailSys).state.trace.drop
      copyCloseFailSys.trace.length) = some none ∧
    (main 5 ["bobcat", "a"] copyCloseFailSys).state.fdtab = copyCloseFailSys.fdtab := by
  obtain ⟨cur, h1, h2⟩ := (descriptor_discipline 5 ["bobcat", "a"] copyCloseFailSys).1
  obtain ⟨h3, -, h5⟩ := h2 (by decide)
  exact ⟨by decide, by rw [h1, h3], h5⟩

/-- C10: when every successful `write` accepts at least one byte, the inner
loop of `copy_file`, started with `total_written = 0` on a chunk of
`bytes_read <= 4096` bytes, ends (by leaving the loop with
`total_written = bytes_read`, which is how it ends when no `write` fails, or by
returning -1 after a failed `write`) after at most `bytes_read` writes, each
of them made with `0 <= total_written < bytes_read` for the non-empty slice
from `total_written` to `bytes_read`, which lies inside the buffer; and
`copy_file` terminates on every finite source, every `read` returning at most
4096 and every `write` being asked for a non-empty slice inside the 4096-byte
buffer.  The precondition is needed: when every `write` accepts zero bytes the
loop on a non-empty chunk is still running whatever the fuel. -/
theorem write_loop_invariant (name : String) (fd : Int) (s : Sys) :
    (WriteProgress s →
      (∀ (buffer : List Byte) (bytes_read fuel : Nat),
        bytes_read ≤ BUFFER_SIZE → bytes_read < fuel →
        ∃ (ex : LoopExit) (s' : Sys) (T : List Event),
          write_loop name buffer bytes_read fuel 0 s = .done ex s' ∧
          s'.trace = s.trace ++ T ∧
          (ex = .finished bytes_read ∨ ex = .returned (-1)) ∧
          (NoWriteError s → ex = .finished bytes_read) ∧
          writeCalls T ≤ bytes_read ∧
          ∀ f off cnt ret, Event.writeCall f off cnt ret ∈ T →
            0 ≤ off ∧ off < bytes_read ∧ cnt = bytes_read - off ∧ 0 < cnt ∧
              off + cnt ≤ (BUFFER_SIZE : Int) ∧ ret ≤ cnt) ∧
      (∀ (rest : List Byte) (fuel : Nat), source s fd = some rest → rest.length + 2 ≤ fuel →
        ∃ (rc : Int) (s' : Sys), copy_file fuel fd name s = .done rc s' ∧
          (∀ f c r, Event.readCall f c r ∈ s'.trace.drop s.trace.length →
            c = BUFFER_SIZE ∧ r ≤ (BUFFER_SIZE : Int)) ∧
          (∀ f off cnt ret, Event.writeCall f off cnt ret ∈ s'.trace.drop s.trace.length →
            0 ≤ off ∧ 0 < cnt ∧ off + cnt ≤ (BUFFER_SIZE : Int)))) ∧
    ((∀ i, s.writeO i = .accept 0) →
      ∀ (buffer : List Byte) (bytes_read fuel : Nat), 0 < bytes_read →
        (write_loop name buffer bytes_read fuel 0 s).value = none) := by
  refine ⟨fun hp => ⟨?_, ?_⟩, ?_⟩
  · intro buffer n fuel hn hfuel
    obtain ⟨t, k, T, -, -, h3, h4, h5, h6, h7, h8⟩ :=
      write_loop_run name buffer n fuel 0 s (Nat.zero_le _)
    rw [show (((0 : Nat) : Int)) = 0 from rfl] at h3 h5 h7
    have hv := h7 hp (by omega)
    have hb : ∀ f off cnt ret, Event.writeCall f off cnt ret ∈ T →
        0 ≤ off ∧ off < (n : Int) ∧ cnt = (n : Int) - off ∧ 0 < cnt ∧
          off + cnt ≤ (BUFFER_SIZE : Int) ∧ ret ≤ cnt := by
      intro f off cnt ret hmem
      have := h4 _ hmem
      simp only [WriteEvent] at this
      obtain ⟨-, a, b, c, -, e⟩ := this
      have hn' : (n : Int) ≤ (BUFFER_SIZE : Int) := by exact_mod_cast hn
      refine ⟨a, ?_, ?_, b, ?_, e⟩ <;> omega
    cases hval : (write_loop name buffer (n : Nat) fuel 0 s).value with
    | none => exact absurd hval hv
    | some ex =>
      rw [hval] at h5
      refine ⟨ex, _, T, Res.eq_done _ _ hval, by rw [h3]; simp, ?_, ?_, by simpa using h6 hp, hb⟩
      · cases ex with
        | finished x => left; simp only [WriteEnd] at h5; rw [h5.1]
        | returned rc => right; simp only [WriteEnd] at h5; rw [h5.1]
      · intro hne
        have hf := h8 hne
        cases ex with
        | finished x => simp only [WriteEnd] at h5; rw [h5.1]
        | returned rc =>
          simp only [WriteEnd] at h5
          obtain ⟨-, -, T0, hT, hf0, -⟩ := h5
          rw [hT, failures_append, hf0] at hf
          simp [failures, Event.failed] at hf
  · intro rest fuel hsrc hfuel
    obtain ⟨n, out, k, T, -, h2, h3, -, h5, -⟩ := copy_file_summary fuel fd name s rest hsrc
    have hv := h5 hp hfuel
    cases hval : (copy_file fuel fd name s).value with
    | none => exact absurd hval hv
    | some rc =>
      refine ⟨rc, _, Res.eq_done _ _ hval, ?_, ?_⟩
      · intro f c r hmem
        rw [h2] at hmem
        simp only [bump_trace, setSource_trace, drop_trace] at hmem
        have := h3 _ hmem
        simp only [CopyEvent] at this
        exact ⟨this.2.1, this.2.2.2⟩
      · intro f off cnt ret hmem
        rw [h2] at hmem
        simp only [bump_trace, setSource_trace, drop_trace] at hmem
        have := h3 _ hmem
        simp only [CopyEvent] at this
        exact ⟨this.2.1, this.2.2.1, this.2.2.2.1⟩
  · intro hz buffer n fuel hn
    have := write_loop_stalls name buffer n fuel 0 s hz hn
    rw [show (((0 : Nat) : Int)) = 0 from rfl] at this
    exact this

/-- C10, evaluated: a system whose writes accept one byte at a time. -/
theorem write_loop_invariant_witness :
    WriteProgress demoSys ∧
    ∃ (rc : Int) (s' : Sys), copy_file 4 STDIN_FILENO "stdin" demoSys = .done rc s' ∧
      (∀ f c r, Event.readCall f c r ∈ s'.trace.drop demoSys.trace.length →
        c = BUFFER_SIZE ∧ r ≤ (BUFFER_SIZE : Int)) ∧
      (∀ f off cnt ret, Event.writeCall f off cnt ret ∈ s'.trace.drop demoSys.trace.length →
        0 ≤ off ∧ 0 < cnt ∧ off + cnt ≤ (BUFFER_SIZE : Int)) :=
  ⟨by intro i; simp [demoSys],
   ((write_loop_invariant "stdin" STDIN_FILENO demoSys).1 (by intro i; simp [demoSys])).2
     [7, 8] 4 (by rfl) (by decide)⟩

end Bobcat
